import Mathlib

/-!
Verification of the directory-relocation tool `move_lmstudio.py`.

The development shallowly embeds the program's components:

* directory trees (`FSTree`) and the pure inspection `collect_dir_info`
  (source lines 54-89);
* the byte formatter `format_bytes` (lines 43-51), with the binary64
  float `amount` represented exactly as the pair `(num_bytes, k)` for the
  value `num_bytes / 1024 ^ k` — every operation the source performs on
  `amount` (comparison with `1024.0`, division by `1024.0`, two-decimal
  formatting) is exact on binary64 floats for `num_bytes < 2 ^ 53`, so this
  representation agrees with the float computation there;
* the robocopy wrapper `run_robocopy` and the copy driver `copy_directory`
  with its manual Python fallback loop (lines 137-179);
* the junction creation `create_junction` (lines 190-201);
* the CLI orchestration `run_cli` (lines 210-321) and the GUI worker
  `MoveApp._start` (lines 461-546), as functions of a `World` of
  platform-oracle answers (robocopy availability and exit code, rmtree and
  mklink outcomes, the path-resolution function) and of the scripted user
  input, returning the ordered trace of filesystem-mutating operations.

External platform facilities (robocopy's own copying, `mklink`, `rmtree`
success) are oracles in `World`; all decision logic of the program itself is
translated from the source.
-/

/-! ## Directory trees

A directory entry is a file (with its size, and a flag telling whether
`stat` succeeds on it when visited — the source skips files whose `stat`
raises `OSError` during the size walk, line 60-63) or a directory with a
list of named children. -/

inductive FSTree where
  | file (size : Nat) ( statOk : Bool)
  | dir (children : List (String × FSTree))
  deriving Repr

/-- Lookup of a directory entry by name (first match). -/
def lookupChild (n : String) : List (String × FSTree) → Option FSTree
  | [] => none
  | (m, t) :: rest => if m = n then some t else lookupChild n rest

/-- Replace the entry named `n` (first match) by `v`; identity if absent. -/
def setChild (n : String) (v : FSTree) : List (String × FSTree) → List (String × FSTree)
  | [] => []
  | (m, t) :: rest => if m = n then (m, v) :: rest else (m, t) :: setChild n v rest

/-- Navigate a tree along a list of path components. -/
def lookupPath (t : FSTree) : List String → Option FSTree
  | [] => some t
  | n :: rest =>
    match t with
    | .dir cs =>
      match lookupChild n cs with
      | some c => lookupPath c rest
      | none => none
    | _ => none

/-- The file children of a directory, as `os.walk` lists them in `files`. -/
def childFiles (cs : List (String × FSTree)) : List (String × FSTree) :=
  cs.filter (fun c => match c.2 with | .file _ _ => true | _ => false)

/-! ## Inspection: `collect_dir_info` (lines 67-89) and `walk_dir_size` (lines 54-64) -/

/-- Result record of `collect_dir_info` (the keys of the `info` dict,
line 69-76; `ex` stands for the key `"exists"`, a reserved word here). -/
structure DirInfo where
  ex : Bool
  is_dir : Bool
  file_count : Nat
  dir_count : Nat
  total_size : Nat
  is_empty : Bool
  deriving Repr, DecidableEq

/-- Number of files at every depth, as summed over all `os.walk` rows
(line 81-84: each row contributes `len(files)`). -/
def countFiles : List (String × FSTree) → Nat
  | [] => 0
  | (_, .file _ _) :: rest => countFiles rest + 1
  | (_, .dir cs) :: rest => countFiles cs + countFiles rest

/-- Number of directories at every depth, as summed over all `os.walk` rows
(line 81-84: each row contributes `len(dirs)`). -/
def countDirs : List (String × FSTree) → Nat
  | [] => 0
  | (_, .file _ _) :: rest => countDirs rest
  | (_, .dir cs) :: rest => (countDirs cs + 1) + countDirs rest

/-- Sum of the sizes of all files whose `stat` succeeds; a file whose
`stat` raises `OSError` contributes nothing (`except OSError: pass`,
lines 60-63). Embeds `walk_dir_size`. -/
def walk_dir_size : List (String × FSTree) → Nat
  | [] => 0
  | (_, .file sz ok) :: rest => (if ok then sz else 0) + walk_dir_size rest
  | (_, .dir cs) :: rest => walk_dir_size cs + walk_dir_size rest

/-- Embedding of `collect_dir_info` (lines 67-89). The argument is the
entry found at the inspected path: `none` when the path does not exist.
The defaults of the `info` dict (line 69-76) are kept unless the path
exists and is a directory. -/
def collect_dir_info : Option FSTree → DirInfo
  | none =>
    { ex := false, is_dir := false, file_count := 0, dir_count := 0
      total_size := 0, is_empty := true }
  | some (.file _ _) =>
    { ex := true, is_dir := false, file_count := 0, dir_count := 0
      total_size := 0, is_empty := true }
  | some (.dir cs) =>
    { ex := true, is_dir := true, file_count := countFiles cs, dir_count := countDirs cs
      total_size := walk_dir_size cs
      is_empty := decide (countFiles cs = 0 ∧ countDirs cs = 0) }

/-! ## Byte formatting: `format_bytes` (lines 43-51) -/

/-- Two-decimal rendering of the value `n / 1024 ^ k`, as Python's
`f-string` `:.2f` renders the (here exactly represented) float: round the
value times 100 to the nearest integer, ties to even. -/
def twoDecimals (n : Nat) (k : Nat) : String :=
  let d := 1024 ^ k
  let f := 100 * n / d
  let rem := 100 * n % d
  let cents := if 2 * rem < d then f else if 2 * rem > d then f + 1
    else if f % 2 = 0 then f else f + 1
  toString (cents / 100) ++ "." ++ (if cents % 100 < 10 then "0" else "") ++
    toString (cents % 100)

/-- Loop of `format_bytes` (lines 47-50) over the unit list, with the float
`amount` carried exactly as the value `numBytes / 1024 ^ k`: the test
`amount < 1024.0` is `numBytes < 1024 ^ (k + 1)` and `amount /= 1024.0`
increments `k`. -/
def format_go (numBytes : Nat) : List String → Nat → String
  | [], k => twoDecimals numBytes k ++ " PB"
  | unit :: rest, k =>
    if numBytes < 1024 ^ (k + 1) then twoDecimals numBytes k ++ " " ++ unit
    else format_go numBytes rest (k + 1)

/-- Embedding of `format_bytes` (lines 43-51): `units = [B, KB, MB, GB, TB]`,
and after the loop exhausts the list the amount is printed in `PB`. -/
def format_bytes (numBytes : Nat) : String :=
  format_go numBytes ["B", "KB", "MB", "GB", "TB"] 0

/-! ## Junction creation: `create_junction` (lines 190-201), entry-level model

For claims C3 and C10 only the entry found at the link path matters. The
model distinguishes the answers Python's `Path.exists()` (follows symlinks:
false on a dangling one) and `Path.is_symlink()` give for it. -/

/-- What occupies the link path: nothing, a file, a directory, or a symlink
(`targetResolves = false` for a dangling one). -/
inductive PathEntry where
  | file
  | dir
  | symlink (targetResolves : Bool)
  deriving Repr, DecidableEq

/-- Python `Path.exists()`: follows symlinks, so a dangling symlink does
not exist. -/
def path_exists : Option PathEntry → Bool
  | none => false
  | some .file => true
  | some .dir => true
  | some (.symlink b) => b

/-- Python `Path.is_symlink()`: true exactly for symlinks, dangling or not. -/
def path_is_symlink : Option PathEntry → Bool
  | some (.symlink _) => true
  | _ => false

/-- Outcome of one `create_junction` call: whether it failed on the
line-192 precondition, whether the `mklink` subprocess was invoked (the
only filesystem-touching operation in the function), and the result. -/
structure JunctionCall where
  precondError : Bool
  mklinkInvoked : Bool
  result : Except String Unit
  deriving Repr

/-- Embedding of `create_junction` (lines 190-201): raise if the link path
exists or is a symlink (line 192), else invoke `mklink` and raise on a
non-zero return code (line 197). `mklinkCode` is the platform oracle for
the subprocess's return code. -/
def create_junction (atLink : Option PathEntry) (mklinkCode : Nat) : JunctionCall :=
  if path_exists atLink || path_is_symlink atLink then
    { precondError := true, mklinkInvoked := false, result := .error "链接位置已存在" }
  else if mklinkCode ≠ 0 then
    { precondError := false, mklinkInvoked := true, result := .error "创建联接失败" }
  else
    { precondError := false, mklinkInvoked := true, result := .ok () }

/-! ## The manual Python fallback copy (lines 170-179)

The fallback walks the source tree (`os.walk(source)`), creates each
mirrored destination directory (`ensure_directory(dest_root)`, a
`mkdir(parents=True, exist_ok=True)` which raises when the path exists as a
file), and copies each file only when no entry exists at the destination
path (`if not to_path.exists()`, line 178). -/

/-- Inner file loop of the fallback (lines 175-179): for each source file,
copy it to the destination children unless an entry of that name exists. -/
def copy_files : List (String × FSTree) → List (String × FSTree) → List (String × FSTree)
  | [], acc => acc
  | (n, f) :: rest, acc =>
    match lookupChild n acc with
    | some _ => copy_files rest acc
    | none => copy_files rest (acc ++ [(n, f)])

/-- Walk of the fallback over the source directory entries, merging into
the destination children `acc`. File entries were handled by `copy_files`
at their own level and are skipped here (they are the `files`, not the
`dirs`, of the `os.walk` row). For a directory entry: if the destination
has nothing of that name, `mkdir` creates it and the walk continues inside
with that directory's own files copied first; if the destination has a
directory of that name, `mkdir` is a no-op (`exist_ok=True`) and the walk
merges inside; if the destination has a file of that name, `mkdir` raises
`FileExistsError`. -/
def walk_copy : List (String × FSTree) → List (String × FSTree) →
    Except String (List (String × FSTree))
  | [], acc => .ok acc
  | (_, .file _ _) :: rest, acc => walk_copy rest acc
  | (n, .dir cs) :: rest, acc =>
    match lookupChild n acc with
    | none =>
      match walk_copy cs (copy_files (childFiles cs) []) with
      | .error e => .error e
      | .ok r => walk_copy rest (acc ++ [(n, .dir r)])
    | some (.dir dcs) =>
      match walk_copy cs (copy_files (childFiles cs) dcs) with
      | .error e => .error e
      | .ok r => walk_copy rest (setChild n (.dir r) acc)
    | some (.file _ _) => .error "FileExistsError: mkdir"

/-- The whole fallback copy of lines 170-179, source tree into destination
tree: the root's files are copied first (the first `os.walk` row), then the
walk descends. Non-directory arguments cannot arise at this point in the
source (`copy_directory` is reached only for directory sources and an
ensured destination) and are mapped to an error. -/
def py_copy_fallback : FSTree → FSTree → Except String FSTree
  | .dir scs, .dir dcs =>
    match walk_copy scs (copy_files (childFiles scs) dcs) with
    | .error e => .error e
    | .ok r => .ok (.dir r)
  | _, _ => .error "walk of a non-directory"

/-! ## Run-level filesystem

The orchestrated runs address filesystem locations by their resolved path
string. An entry at a location is a tree or a directory junction. Symlinks
are never created by any operation of the program, so they do not occur at
this level (the entry-level `create_junction` model above keeps them for
the line-192 check). -/

/-- An entry at a resolved path: a whole tree, or a junction to another
resolved path. -/
inductive FSEntry where
  | tree (t : FSTree)
  | junction (tgt : String)
  deriving Repr

/-- The run-level filesystem: what entry, if any, each resolved path
holds. Nesting of distinct top-level paths is not represented: every
operation of the program addresses a location by the one path it was given.
-/
def RunFS : Type := String → Option FSEntry

/-- Point update of the run-level filesystem. -/
def update (fs : RunFS) (p : String) (e : Option FSEntry) : RunFS :=
  fun q => if q = p then e else fs q

theorem update_apply (fs : RunFS) (p : String) (e : Option FSEntry) (q : String) :
    update fs p e q = if q = p then e else fs q := rfl

/-- The tree a path resolves to, following one junction hop (a junction to
a missing or non-tree location is dangling and resolves to nothing). This
is what `Path.exists()` / `os.walk` see at the path. -/
def resolveEntry (fs : RunFS) (p : String) : Option FSTree :=
  match fs p with
  | some (.tree t) => some t
  | some (.junction q) =>
    match fs q with
    | some (.tree t) => some t
    | _ => none
  | none => none

/-- The path a write through `p` lands on: the junction target if `p` holds
a junction, else `p` itself. -/
def resolveKey (fs : RunFS) (p : String) : String :=
  match fs p with
  | some (.junction q) => q
  | _ => p

/-- Embedding of `ensure_directory` (lines 132-134),
`path.mkdir(parents=True, exist_ok=True)`: creates a directory when the
path is free; a no-op when the path already is a directory (also through a
junction); raises `FileExistsError` (`none`) when the path exists as a
file or as a dangling junction. The returned event list records an actual
creation. -/
def ensure_dir_run (fs : RunFS) (p : String) : Option (RunFS × List String) :=
  match fs p with
  | none => some (update fs p (some (.tree (.dir []))), [p])
  | some (.tree (.dir _)) => some (fs, [])
  | some (.tree (.file _ _)) => none
  | some (.junction q) =>
    match fs q with
    | some (.tree (.dir _)) => some (fs, [])
    | _ => none

/-! ## Events, outcomes, the oracle world -/

/-- One observable step of a run, in execution order. The two `prompted`
events record the resolved paths the run settled on; every other event is
an operation that touches the filesystem. -/
inductive Event where
  | promptedSource (p : String)
  | promptedTarget (p : String)
  | createdDir (p : String)
  | deletedTarget (p : String)
  | ranRobocopy (src tgt : String)
  | ranPyCopy (src tgt : String)
  | deletedSource (p : String)
  | ranMklink (link tgt : String)
  deriving Repr, DecidableEq

/-- The phase an uncaught exception escaped from. -/
inductive Phase where
  | createSource
  | overwriteDelete
  | copy
  | deleteSource
  | link
  deriving Repr, DecidableEq

/-- How a run ended. `cancelled` covers every "已取消" return; `crashed`
is an exception the source does not catch (it propagates out of `run_cli`,
or kills the GUI worker thread); `uiError` is a GUI message-box-and-return;
`copyFailed`, `deleteFailed`, `linkFailed` are the caught phase failures of
lines 293-313; the `done` outcomes are the normal completions (for the CLI
full protocol, split by the line-316 verification). -/
inductive Outcome where
  | cancelled
  | outOfInput
  | crashed (ph : Phase)
  | uiError
  | copyFailed
  | deleteFailed
  | linkFailed
  | doneLinkOnly
  | done
  | doneVerified
  | doneUnverified
  deriving Repr, DecidableEq

/-- The oracle world of one run: the platform's path resolution
(`Path(...).expanduser().resolve()` as one function), the home directory,
the initial filesystem, and the outcomes of the external facilities
(rmtree per path, `mklink` return code per link/target pair, robocopy's
availability, exit code and produced tree). `admin` and `procs` are the
advisory signals of lines 279-280. -/
structure World where
  resolve : String → String
  home : String
  fs0 : RunFS
  rmtreeOk : String → Bool
  mklinkCode : String → String → Nat
  robocopyAvailable : Bool
  robocopyCode : Nat
  robocopyTree : FSTree
  admin : Bool
  procs : List String

/-- Default source path, line 216: `(Path.home() / ".lmstudio").resolve()`. -/
def default_source (w : World) : String := w.resolve (w.home ++ "/.lmstudio")

/-- Default target path, line 217: `Path("D:/LMstudio_AIModels").resolve()`. -/
def default_target (w : World) : String := w.resolve "D:/LMstudio_AIModels"

/-! ## The five operations as run-level steps -/

/-- Embedding of `run_robocopy`'s result (lines 137-161): when the
`robocopy` binary exists, success is a return code at most 7 (line 153);
when it does not (`FileNotFoundError`), the function returns false
(line 159-161). -/
def run_robocopy (available : Bool) (code : Nat) : Bool :=
  if available then code ≤ 7 else false

/-- Result of the fallback loop of lines 170-179 on the run-level
filesystem: `os.walk` of a missing source yields nothing (the loop copies
nothing and succeeds); otherwise the source tree is merged into the
destination tree by `py_copy_fallback`, writing through a destination
junction. -/
def pyCopyResult (fs : RunFS) (sp tp : String) : Except String RunFS :=
  match resolveEntry fs sp with
  | none => .ok fs
  | some srcTree =>
    match resolveEntry fs tp with
    | some dstTree =>
      match py_copy_fallback srcTree dstTree with
      | .ok t => .ok (update fs tp (some (.tree t)))
      | .error e => .error e
    | none => .error "destination missing"

/-- Embedding of `copy_directory` (lines 164-179): ensure the target
directory, try robocopy, and on a false return from `run_robocopy` — the
binary missing or its exit code above 7 alike — run the Python fallback.
On robocopy success the target holds the oracle tree `w.robocopyTree`
(robocopy itself is an external program). A failed robocopy may leave a
partially-populated target; the trace records it ran, and the model keeps
the pre-call target for the fallback that follows. -/
def copy_directory_run (w : World) (fs : RunFS) (sp tp : String) :
    List Event × Except String RunFS :=
  match ensure_dir_run fs tp with
  | none => ([], .error "mkdir: target path exists as a file")
  | some (fs1, created) =>
    let ev0 := created.map Event.createdDir
    if run_robocopy w.robocopyAvailable w.robocopyCode then
      (ev0 ++ [.ranRobocopy sp tp],
       .ok (update fs1 (resolveKey fs1 tp) (some (.tree w.robocopyTree))))
    else
      let rEvs := if w.robocopyAvailable then [Event.ranRobocopy sp tp] else []
      (ev0 ++ rEvs ++ [.ranPyCopy sp tp], pyCopyResult fs1 sp tp)

/-- Embedding of `delete_directory` (lines 182-187): a no-op when the path
does not exist (line 184-185); otherwise `shutil.rmtree`, whose success is
the oracle `w.rmtreeOk`. The event records that deletion began, whether or
not it succeeded. -/
def delete_directory_run (w : World) (fs : RunFS) (p : String) :
    List Event × Except String RunFS :=
  if (resolveEntry fs p).isSome then
    if w.rmtreeOk p then ([.deletedSource p], .ok (update fs p none))
    else ([.deletedSource p], .error "rmtree")
  else ([], .ok fs)

/-- The direct `shutil.rmtree(target_dir)` calls of line 257 and line 537
(overwrite of an existing target; both sites run it only on an existing
target). -/
def rmtree_target_run (w : World) (fs : RunFS) (p : String) :
    List Event × Except String RunFS :=
  if w.rmtreeOk p then ([.deletedTarget p], .ok (update fs p none))
  else ([.deletedTarget p], .error "rmtree")

/-- Embedding of `create_junction` (lines 190-201) on the run-level
filesystem: fail if the link path exists (run-level entries are trees and
junctions, for which `Path.is_symlink()` is false, so the line-192 check
reduces to `exists()`); else invoke `mklink` with the oracle return code,
and on 0 the link path holds a junction to the target. -/
def create_junction_run (w : World) (fs : RunFS) (link tgt : String) :
    List Event × Except String RunFS :=
  if (resolveEntry fs link).isSome then ([], .error "链接位置已存在")
  else if w.mklinkCode link tgt ≠ 0 then ([.ranMklink link tgt], .error "创建联接失败")
  else ([.ranMklink link tgt], .ok (update fs link (some (.junction tgt))))

/-! ## Scripted user input

The CLI reads lines with `input()`; the script models the sequence of
answers, each already stripped and lowercased as the source normalizes
them. An exhausted script corresponds to `input()` raising `EOFError`. -/

/-- Embedding of `ask_yes_no` (lines 105-116): empty answer takes the
default when one is given; the listed yes/no words decide; anything else
re-asks on the next script entry. -/
def ask_yes_no (dflt : Option String) : List String → Option (Bool × List String)
  | [] => none
  | ans :: rest =>
    if ans = "" ∧ dflt.isSome then some (dflt.getD "" == "y", rest)
    else if ans ∈ ["y", "yes", "是", "好", "确认"] then some (true, rest)
    else if ans ∈ ["n", "no", "否", "不", "取消"] then some (false, rest)
    else ask_yes_no dflt rest

/-- Embedding of `prompt_for_path` (lines 119-129): empty input takes the
default (already resolved by the caller); any other text is resolved. The
retry branch of line 129 is unreachable — `str()` of a resolved `Path` is
never empty — so every non-empty script entry returns. -/
def prompt_for_path (resolve : String → String) (dflt : Option String) :
    List String → Option (String × List String)
  | [] => none
  | text :: rest =>
    if text = "" ∧ dflt.isSome then some (dflt.getD "", rest)
    else some (resolve text, rest)

theorem ask_yes_no_length {dflt : Option String} :
    ∀ {s : List String} {b : Bool} {s' : List String},
      ask_yes_no dflt s = some (b, s') → s'.length < s.length := by
  intro s
  induction s with
  | nil => intro b s' h; simp [ask_yes_no] at h
  | cons ans rest ih =>
    intro b s' h
    simp only [ask_yes_no] at h
    split at h
    · cases h; simp
    · split at h
      · cases h; simp
      · split at h
        · cases h; simp
        · have := ih h
          simp only [List.length_cons]
          omega

theorem prompt_for_path_length {resolve : String → String} {dflt : Option String} :
    ∀ {s : List String} {p : String} {s' : List String},
      prompt_for_path resolve dflt s = some (p, s') → s'.length < s.length := by
  intro s p s' h
  cases s with
  | nil => simp [prompt_for_path] at h
  | cons text rest =>
    simp only [prompt_for_path] at h
    split at h
    · cases h; simp
    · cases h; simp

/-! ## The CLI protocol: `run_cli` (lines 210-321) -/

/-- Everything one run produces: the ordered event trace, the outcome, the
final run-level filesystem (meaningful for the completed outcomes; a
failed phase additionally leaves the unspecified partial state its
diagnostic describes), and the resolved source and target paths the run
settled on, when it got that far. -/
structure RunResult where
  evs : List Event
  outcome : Outcome
  fs : RunFS
  src : Option String
  tgt : Option String

/-- Prefix a run result's trace with earlier events. -/
def withEvs (pre : List Event) (r : RunResult) : RunResult :=
  ⟨pre ++ r.evs, r.outcome, r.fs, r.src, r.tgt⟩

/-- Lines 278-321 of `run_cli`: the confirmation of line 288 (admin rights
and closed processes, advisory only), then copy (caught: line 293-297),
delete source (caught: line 300-305), create junction (caught: line
308-313), then the verification of line 316. -/
def cli_mutation_phase (w : World) (fs : RunFS) (sp tp : String)
    (script : List String) : RunResult :=
  match ask_yes_no (some "n") script with
  | none => ⟨[], .outOfInput, fs, some sp, some tp⟩
  | some (false, _) => ⟨[], .cancelled, fs, some sp, some tp⟩
  | some (true, _) =>
    let c := copy_directory_run w fs sp tp
    match c.2 with
    | .error _ => ⟨c.1, .copyFailed, fs, some sp, some tp⟩
    | .ok fs1 =>
      let d := delete_directory_run w fs1 sp
      match d.2 with
      | .error _ => ⟨c.1 ++ d.1, .deleteFailed, fs1, some sp, some tp⟩
      | .ok fs2 =>
        let j := create_junction_run w fs2 sp tp
        match j.2 with
        | .error _ => ⟨c.1 ++ d.1 ++ j.1, .linkFailed, fs2, some sp, some tp⟩
        | .ok fs3 =>
          match resolveEntry fs3 sp with
          | some (.dir _) => ⟨c.1 ++ d.1 ++ j.1, .doneVerified, fs3, some sp, some tp⟩
          | _ => ⟨c.1 ++ d.1 ++ j.1, .doneUnverified, fs3, some sp, some tp⟩

/-- Choice `2` of the menu, once confirmed (lines 253-258): delete the
existing target with a raw `shutil.rmtree` — uncaught, so its failure
crashes the run — then fall through to the mutation phase. -/
def cli_overwrite_then_copy (w : World) (fs : RunFS) (sp tp : String)
    (s3 : List String) : RunResult :=
  let d := rmtree_target_run w fs tp
  match d.2 with
  | .error _ => ⟨d.1, .crashed .overwriteDelete, fs, some sp, some tp⟩
  | .ok fs1 => withEvs d.1 (cli_mutation_phase w fs1 sp tp s3)

/-- Choice `3` of the menu, once confirmed (lines 262-267): delete an
existing source and create the junction at the source path, both uncaught. -/
def cli_link_only (w : World) (fs : RunFS) (sp tp : String) : RunResult :=
  let d := if (resolveEntry fs sp).isSome
    then delete_directory_run w fs sp else ([], .ok fs)
  match d.2 with
  | .error _ => ⟨d.1, .crashed .deleteSource, fs, some sp, some tp⟩
  | .ok fs1 =>
    let j := create_junction_run w fs1 sp tp
    match j.2 with
    | .error _ => ⟨d.1 ++ j.1, .crashed .link, fs1, some sp, some tp⟩
    | .ok fs2 => ⟨d.1 ++ j.1, .doneLinkOnly, fs2, some sp, some tp⟩

/-- The target-selection loop of lines 239-276. When the prompted target
exists, the menu offers: `1` re-enter the target, `2` overwrite
(`cli_overwrite_then_copy`), `3` link-only (`cli_link_only`), `4` cancel;
an invalid choice re-enters the loop. A non-existing target proceeds
straight to the mutation phase. -/
def cli_target_loop (w : World) (fs : RunFS) (sp : String) :
    List String → RunResult
  | script =>
    match h : prompt_for_path w.resolve (some (default_target w)) script with
    | none => ⟨[], .outOfInput, fs, some sp, none⟩
    | some (tp, s1) =>
      let ti := collect_dir_info (resolveEntry fs tp)
      if ti.ex then
        match h1 : s1 with
        | [] => ⟨[.promptedTarget tp], .outOfInput, fs, some sp, none⟩
        | choice :: s2 =>
          if choice = "1" then
            withEvs [.promptedTarget tp] (cli_target_loop w fs sp s2)
          else if choice = "2" then
            match h2 : ask_yes_no (some "n") s2 with
            | none => ⟨[.promptedTarget tp], .outOfInput, fs, some sp, none⟩
            | some (false, s3) =>
              withEvs [.promptedTarget tp] (cli_target_loop w fs sp s3)
            | some (true, s3) =>
              withEvs [.promptedTarget tp] (cli_overwrite_then_copy w fs sp tp s3)
          else if choice = "3" then
            match h2 : ask_yes_no (some "n") s2 with
            | none => ⟨[.promptedTarget tp], .outOfInput, fs, some sp, none⟩
            | some (false, s3) =>
              withEvs [.promptedTarget tp] (cli_target_loop w fs sp s3)
            | some (true, _) =>
              withEvs [.promptedTarget tp] (cli_link_only w fs sp tp)
          else if choice = "4" then
            ⟨[.promptedTarget tp], .cancelled, fs, some sp, none⟩
          else
            withEvs [.promptedTarget tp] (cli_target_loop w fs sp s2)
      else
        withEvs [.promptedTarget tp] (cli_mutation_phase w fs sp tp s1)
termination_by script => script.length
decreasing_by
  all_goals
    (show _ < script.length
     have hp := prompt_for_path_length h
     simp only [List.length_cons] at hp
     try (have ha := ask_yes_no_length h2; simp only [List.length_cons] at ha)
     omega)

/-- Lines 233-236: the empty-source confirmation (default no), then the
target loop. -/
def cli_after_source (w : World) (fs : RunFS) (sp : String)
    (script : List String) : RunResult :=
  let si := collect_dir_info (resolveEntry fs sp)
  if si.ex && si.is_dir && si.is_empty then
    match ask_yes_no (some "n") script with
    | none => ⟨[], .outOfInput, fs, some sp, none⟩
    | some (false, _) => ⟨[], .cancelled, fs, some sp, none⟩
    | some (true, s1) => cli_target_loop w fs sp s1
  else cli_target_loop w fs sp script

/-- Embedding of `run_cli` (lines 210-321): prompt the source (line 220),
offer to create a missing source (lines 224-231, the `mkdir` uncaught),
then the empty check, the target loop, and the mutation phase. -/
def run_cli (w : World) (script : List String) : RunResult :=
  match prompt_for_path w.resolve (some (default_source w)) script with
  | none => ⟨[], .outOfInput, w.fs0, none, none⟩
  | some (sp, s1) =>
    let si := collect_dir_info (resolveEntry w.fs0 sp)
    if ¬ si.ex then
      match ask_yes_no (some "y") s1 with
      | none => ⟨[.promptedSource sp], .outOfInput, w.fs0, some sp, none⟩
      | some (false, _) => ⟨[.promptedSource sp], .cancelled, w.fs0, some sp, none⟩
      | some (true, s2) =>
        match ensure_dir_run w.fs0 sp with
        | none => ⟨[.promptedSource sp], .crashed .createSource, w.fs0, some sp, none⟩
        | some (fs1, created) =>
          withEvs (.promptedSource sp :: created.map Event.createdDir)
            (cli_after_source w fs1 sp s2)
    else withEvs [.promptedSource sp] (cli_after_source w w.fs0 sp s1)

/-! ## The GUI worker: `MoveApp._start` (lines 461-546) -/

/-- The answers the GUI user gives to the four `messagebox.askyesno`
confirmations of `_start` (create missing source, continue with empty
source, overwrite confirmation, final confirmation). -/
structure GuiAnswers where
  createSource : Bool
  emptyContinue : Bool
  overwriteConfirm : Bool
  finalConfirm : Bool
  deriving Repr, DecidableEq

/-- Embedding of the worker thread of lines 524-544. The worker has no
per-phase exception handling (only a `finally` that re-enables the UI), so
any raising phase ends the run as `crashed` at that phase. Link-only: delete
an existing source, create the junction (lines 527-531). Otherwise:
overwrite-delete an existing target when requested (lines 535-537), copy,
delete source, create the junction (lines 539-541). -/
def worker_run (w : World) (fs : RunFS) (sp tp : String)
    (link_only overwrite : Bool) : List Event × Outcome × RunFS :=
  if link_only then
    let d := if (resolveEntry fs sp).isSome
      then delete_directory_run w fs sp else ([], .ok fs)
    match d.2 with
    | .error _ => (d.1, .crashed .deleteSource, fs)
    | .ok fs1 =>
      let j := create_junction_run w fs1 sp tp
      match j.2 with
      | .error _ => (d.1 ++ j.1, .crashed .link, fs1)
      | .ok fs2 => (d.1 ++ j.1, .doneLinkOnly, fs2)
  else
    let o := if overwrite ∧ (resolveEntry fs tp).isSome
      then rmtree_target_run w fs tp else ([], .ok fs)
    match o.2 with
    | .error _ => (o.1, .crashed .overwriteDelete, fs)
    | .ok fs1 =>
      let c := copy_directory_run w fs1 sp tp
      match c.2 with
      | .error _ => (o.1 ++ c.1, .crashed .copy, fs1)
      | .ok fs2 =>
        let d := delete_directory_run w fs2 sp
        match d.2 with
        | .error _ => (o.1 ++ c.1 ++ d.1, .crashed .deleteSource, fs2)
        | .ok fs3 =>
          let j := create_junction_run w fs3 sp tp
          match j.2 with
          | .error _ => (o.1 ++ c.1 ++ d.1 ++ j.1, .crashed .link, fs3)
          | .ok fs4 => (o.1 ++ c.1 ++ d.1 ++ j.1, .done, fs4)

/-- Dialog sequence of `_start` after the source exists (lines 491-522):
the empty-source confirmation, the target-exists handling (warning dialog
without overwrite, dangerous-operation confirmation with it), the final
confirmation, then the worker thread. -/
def gui_after_source (w : World) (sp tp : String) (link_only overwrite : Bool)
    (a : GuiAnswers) (tiex : Bool) (fs1 : RunFS) (ev1 : List Event) :
    List Event × Outcome × RunFS :=
  let si2 := collect_dir_info (resolveEntry fs1 sp)
  if si2.is_dir ∧ si2.is_empty ∧ ¬ a.emptyContinue then (ev1, .cancelled, fs1)
  else if ¬ link_only ∧ tiex ∧ ¬ overwrite then (ev1, .uiError, fs1)
  else if ¬ link_only ∧ tiex ∧ overwrite ∧ ¬ a.overwriteConfirm then (ev1, .cancelled, fs1)
  else if ¬ a.finalConfirm then (ev1, .cancelled, fs1)
  else
    let r := worker_run w fs1 sp tp link_only overwrite
    (ev1 ++ r.1, r.2.1, r.2.2)

/-- Embedding of `MoveApp._start` (lines 461-522): both entry fields are
resolved (lines 464-465), a missing source may be created (lines 480-489,
the `mkdir` caught as an error dialog), then `gui_after_source`. The
target was inspected at line 477, before any source creation, so its
`ti.ex` refers to the initial filesystem. The `if not str(...)` checks of
lines 469-474 are never taken for a resolved path, and the advisory
admin/process report of lines 505-519 carries no decision, so neither
appears. -/
def gui_start (w : World) (sourceVar targetVar : String)
    (link_only overwrite : Bool) (a : GuiAnswers) : List Event × Outcome × RunFS :=
  let sp := w.resolve sourceVar
  let tp := w.resolve targetVar
  let si := collect_dir_info (resolveEntry w.fs0 sp)
  let ti := collect_dir_info (resolveEntry w.fs0 tp)
  if ¬ si.ex then
    if ¬ a.createSource then ([], .cancelled, w.fs0)
    else match ensure_dir_run w.fs0 sp with
      | none => ([], .uiError, w.fs0)
      | some (fs1, created) =>
        gui_after_source w sp tp link_only overwrite a ti.ex fs1
          (created.map Event.createdDir)
  else gui_after_source w sp tp link_only overwrite a ti.ex w.fs0 []

/-! ## Observables of a trace -/

/-- Whether an event is a filesystem mutation (everything except the two
`prompted` markers). -/
def Event.isMutation : Event → Bool
  | .promptedSource _ => false
  | .promptedTarget _ => false
  | _ => true

/-- Whether an event writes at, into, or over the location `p`. -/
def Event.mutatesPath (p : String) : Event → Bool
  | .promptedSource _ => false
  | .promptedTarget _ => false
  | .createdDir q => q == p
  | .deletedTarget q => q == p
  | .ranRobocopy _ t => t == p
  | .ranPyCopy _ t => t == p
  | .deletedSource q => q == p
  | .ranMklink l _ => l == p

/-- The first filesystem mutation of a trace, if any. -/
def firstMutation (evs : List Event) : Option Event :=
  evs.find? Event.isMutation

/-- Whether an event is an invocation of the Bulk Copier (robocopy or the
Python fallback loop). -/
def Event.isCopy : Event → Bool
  | .ranRobocopy _ _ => true
  | .ranPyCopy _ _ => true
  | _ => false

/-! ## Claim C9: byte formatting -/

/-- C9: the byte formatter scales by factors of 1024 through the units
B, KB, MB, GB, TB and finally PB, printing two decimals; in particular
`format_bytes 0 = "0.00 B"`, `format_bytes 1536 = "1.50 KB"` and
`format_bytes 1073741824 = "1.00 GB"`. The boundary values `1024 ^ k`
witness each unit of the chain, and 3200 bytes (3.125 KB exactly, both as
a rational and as a binary64 float) shows the two-decimal rounding. -/
theorem format_bytes_unit_scaling :
    format_bytes 0 = "0.00 B" ∧
    format_bytes 1536 = "1.50 KB" ∧
    format_bytes 1073741824 = "1.00 GB" ∧
    format_bytes 1023 = "1023.00 B" ∧
    format_bytes 1024 = "1.00 KB" ∧
    format_bytes (1024 ^ 2) = "1.00 MB" ∧
    format_bytes (1024 ^ 4) = "1.00 TB" ∧
    format_bytes (1024 ^ 5) = "1.00 PB" ∧
    format_bytes 3200 = "3.12 KB" := by
  refine ⟨?_, ?_, ?_, ?_, ?_, ?_, ?_, ?_, ?_⟩ <;> rfl

/-! ## Claim C7: inspection of a missing path -/

/-- C7: `collect_dir_info` of a non-existent path is a normal result (the
embedding is a total function — the source likewise only reads
`path.exists()` and `path.is_dir()`, which do not raise): exists false,
both counters and the size zero, isEmpty true. Its result depends on
nothing but the entry at the path, so repeated inspections of an unchanged
filesystem are literally the same value. -/
theorem collect_dir_info_missing_path :
    collect_dir_info none =
      { ex := false, is_dir := false, file_count := 0, dir_count := 0
        total_size := 0, is_empty := true } ∧
    (∀ e : Option FSTree, collect_dir_info e = collect_dir_info e) :=
  ⟨rfl, fun _ => rfl⟩

/-! ## Claims C3 and C10: the junction precondition -/

/-- C3: for every kind of entry occupying the link path — file, directory,
symlink valid or dangling — `create_junction` fails with the line-192
precondition error without invoking `mklink`, which is the only
filesystem-touching operation of the function: nothing is mutated. -/
theorem create_junction_occupied_precondition (e : PathEntry) (code : Nat) :
    (create_junction (some e) code).precondError = true ∧
    (create_junction (some e) code).mklinkInvoked = false ∧
    (create_junction (some e) code).result = .error "链接位置已存在" := by
  cases e <;> simp [create_junction, path_exists, path_is_symlink]

/-- C10: a dangling symlink at the link path does not exist for
`Path.exists()`, yet `create_junction` still fails on the precondition —
through the `is_symlink()` disjunct — before invoking `mklink`: the
occupied-link-path check is strictly stronger than an exists-based one. -/
theorem create_junction_dangling_symlink (code : Nat) :
    path_exists (some (.symlink false)) = false ∧
    (create_junction (some (.symlink false)) code).precondError = true ∧
    (create_junction (some (.symlink false)) code).mklinkInvoked = false := by
  refine ⟨rfl, ?_, ?_⟩ <;> simp [create_junction, path_exists, path_is_symlink]

/-! ## Claim C1: a robocopy exit code above 7 -/

/-- A world whose robocopy is present but exits with code 8, every other
facility succeeding. -/
def robocopyFailWorld : World :=
  { resolve := id, home := "H", fs0 := fun _ => none
    rmtreeOk := fun _ => true, mklinkCode := fun _ _ => 0
    robocopyAvailable := true, robocopyCode := 8
    robocopyTree := .dir [], admin := true, procs := [] }

/-- A filesystem holding one non-empty source directory at `S`. -/
def copySourceFS : RunFS :=
  fun p => if p = "S" then some (.tree (.dir [("a", .file 1 true)])) else none

/-- C1 is false on the code: robocopy runs and exits 8 — outside the
success range — yet the copy is not reported upward as a hard failure: the
manual Python fallback is attempted and the whole copy reports success. -/
theorem copy_directory_code8_falls_back :
    (copy_directory_run robocopyFailWorld copySourceFS "S" "T").1 =
      [.createdDir "T", .ranRobocopy "S" "T", .ranPyCopy "S" "T"] ∧
    ∃ fs', (copy_directory_run robocopyFailWorld copySourceFS "S" "T").2 = .ok fs' := by
  constructor
  · simp [copy_directory_run, ensure_dir_run, copySourceFS, robocopyFailWorld,
      run_robocopy]
  · exact ⟨_, by
      simp [copy_directory_run, ensure_dir_run, copySourceFS, robocopyFailWorld,
        run_robocopy, pyCopyResult, resolveEntry, update_apply, py_copy_fallback,
        walk_copy, copy_files, childFiles, lookupChild, List.filter]
      rfl⟩

/-- C1 amended: when robocopy runs (the binary is present) and exits with a
code above 7, `run_robocopy` prints the failure and returns false, and
`copy_directory` proceeds with the manual Python fallback — exactly the
path of an absent robocopy; the robocopy failure itself is not propagated
to the orchestrator, only a failure of the fallback would be. -/
theorem copy_directory_code_above7_uses_fallback
    (w : World) (fs fs1 : RunFS) (sp tp : String) (created : List String)
    (he : ensure_dir_run fs tp = some (fs1, created))
    (ha : w.robocopyAvailable = true) (hc : 7 < w.robocopyCode) :
    (copy_directory_run w fs sp tp).1 =
      created.map Event.createdDir ++ [.ranRobocopy sp tp, .ranPyCopy sp tp] ∧
    (copy_directory_run w fs sp tp).2 = pyCopyResult fs1 sp tp := by
  have hn : ¬ (w.robocopyCode ≤ 7) := by omega
  constructor <;> simp [copy_directory_run, he, run_robocopy, ha, hn]

/-- Concrete instance of the amended C1. -/
theorem copy_directory_code_above7_uses_fallback_witness :
    robocopyFailWorld.robocopyAvailable = true ∧ 7 < robocopyFailWorld.robocopyCode ∧
    (copy_directory_run robocopyFailWorld copySourceFS "S" "T2").2 =
      pyCopyResult (update copySourceFS "T2" (some (.tree (.dir [])))) "S" "T2" :=
  ⟨rfl, by decide,
    (copy_directory_code_above7_uses_fallback robocopyFailWorld copySourceFS
      (update copySourceFS "T2" (some (.tree (.dir [])))) "S" "T2" ["T2"]
      rfl rfl (by decide)).2⟩

/-! ## Claim C8: properties of the fallback copy

The proofs go through two relations: `extendsL d d'` — the destination
grew from `d` to `d'` without touching what was there (files unchanged at
their paths, directories still directories) — and `covers l d` — the
destination children `d` already contain everything the source children
`l` would copy, so a run of the fallback over `l` into `d` is a no-op. -/

/-- Destination children `d'` extend `d`: every file of `d` is present
unchanged at the same path, and every directory path of `d` still holds
a directory. -/
def extendsL (d d' : List (String × FSTree)) : Prop :=
  ∀ p : List String,
    (∀ sz ok, lookupPath (.dir d) p = some (.file sz ok) →
      lookupPath (.dir d') p = some (.file sz ok)) ∧
    (∀ cs, lookupPath (.dir d) p = some (.dir cs) →
      ∃ cs', lookupPath (.dir d') p = some (.dir cs'))

/-- Destination children `d` cover source children `l`: every source file
name is occupied, every source directory is a directory whose children
recursively cover the source directory's. -/
def covers : List (String × FSTree) → List (String × FSTree) → Prop
  | [], _ => True
  | (n, .file _ _) :: rest, d => (lookupChild n d).isSome ∧ covers rest d
  | (n, .dir cs) :: rest, d =>
    (match lookupChild n d with
     | some (.dir d2) => covers cs d2
     | _ => False) ∧ covers rest d

theorem lookupPath_dir_cons (d : List (String × FSTree)) (n : String) (p : List String) :
    lookupPath (.dir d) (n :: p) =
      match lookupChild n d with
      | some c => lookupPath c p
      | none => none := rfl

theorem lookupChild_append_some {n : String} {acc : List (String × FSTree)}
    {e : FSTree} (l2 : List (String × FSTree)) (h : lookupChild n acc = some e) :
    lookupChild n (acc ++ l2) = some e := by
  induction acc with
  | nil => simp [lookupChild] at h
  | cons c rest ih =>
    obtain ⟨m, t⟩ := c
    simp only [lookupChild, List.cons_append] at h ⊢
    split at h
    · rename_i heq
      rw [if_pos heq]
      exact h
    · rename_i hne
      rw [if_neg hne]
      exact ih h

theorem lookupChild_append_none {n m : String} {acc : List (String × FSTree)}
    (t : FSTree) (h : lookupChild n acc = none) :
    lookupChild n (acc ++ [(m, t)]) = if m = n then some t else none := by
  induction acc with
  | nil => simp [lookupChild]
  | cons c rest ih =>
    obtain ⟨m', t'⟩ := c
    simp only [lookupChild, List.cons_append] at h ⊢
    split at h
    · exact absurd h (by simp)
    · rename_i hne
      rw [if_neg hne]
      exact ih h

theorem lookupChild_set_self {n : String} {acc : List (String × FSTree)}
    {e : FSTree} (v : FSTree) (h : lookupChild n acc = some e) :
    lookupChild n (setChild n v acc) = some v := by
  induction acc with
  | nil => simp [lookupChild] at h
  | cons c rest ih =>
    obtain ⟨m, t⟩ := c
    simp only [lookupChild] at h
    simp only [setChild]
    by_cases hmn : m = n
    · rw [if_pos hmn]
      simp [lookupChild, hmn]
    · rw [if_neg hmn]
      rw [if_neg hmn] at h
      simp only [lookupChild, if_neg hmn]
      exact ih h

theorem lookupChild_set_ne {n m : String} (v : FSTree)
    (acc : List (String × FSTree)) (hne : m ≠ n) :
    lookupChild n (setChild m v acc) = lookupChild n acc := by
  induction acc with
  | nil => simp [setChild]
  | cons c rest ih =>
    obtain ⟨m', t'⟩ := c
    simp only [setChild]
    by_cases h1 : m' = m
    · subst h1
      rw [if_pos rfl]
      simp only [lookupChild]
      rw [if_neg hne, if_neg hne]
    · rw [if_neg h1]
      simp only [lookupChild]
      by_cases h2 : m' = n
      · rw [if_pos h2, if_pos h2]
      · rw [if_neg h2, if_neg h2]
        exact ih

theorem setChild_self {n : String} {acc : List (String × FSTree)} {v : FSTree}
    (h : lookupChild n acc = some v) : setChild n v acc = acc := by
  induction acc with
  | nil => rfl
  | cons c rest ih =>
    obtain ⟨m, t⟩ := c
    simp only [lookupChild] at h
    simp only [setChild]
    split at h
    · cases h
      simp [*]
    · rename_i hne
      rw [if_neg hne, ih h]

theorem copy_files_lookup_some {n : String} {e : FSTree} :
    ∀ (fs acc : List (String × FSTree)), lookupChild n acc = some e →
      lookupChild n (copy_files fs acc) = some e := by
  intro fs
  induction fs with
  | nil => intro acc h; simpa [copy_files] using h
  | cons c rest ih =>
    intro acc h
    obtain ⟨m, t⟩ := c
    simp only [copy_files]
    split
    · exact ih acc h
    · exact ih _ (lookupChild_append_some _ h)

theorem copy_files_isSome {n : String} :
    ∀ (fs acc : List (String × FSTree)), (lookupChild n acc).isSome →
      (lookupChild n (copy_files fs acc)).isSome := by
  intro fs acc h
  obtain ⟨e, he⟩ := Option.isSome_iff_exists.mp h
  rw [copy_files_lookup_some fs acc he]
  rfl

theorem copy_files_isSome_of_mem {n : String} {f : FSTree} :
    ∀ (fs acc : List (String × FSTree)), (n, f) ∈ fs →
      (lookupChild n (copy_files fs acc)).isSome := by
  intro fs
  induction fs with
  | nil => intro acc h; simp at h
  | cons c rest ih =>
    intro acc h
    obtain ⟨m, t⟩ := c
    rcases List.mem_cons.mp h with heq | hmem
    · cases heq
      simp only [copy_files]
      split
      · rename_i e he
        exact copy_files_isSome rest acc (by simp [he])
      · rename_i he
        apply copy_files_isSome
        rw [lookupChild_append_none _ he]
        simp
    · simp only [copy_files]
      split
      · exact ih acc hmem
      · exact ih _ hmem

theorem copy_files_skip :
    ∀ (fs acc : List (String × FSTree)),
      (∀ x ∈ fs, (lookupChild x.1 acc).isSome) → copy_files fs acc = acc := by
  intro fs
  induction fs with
  | nil => intro acc _; rfl
  | cons c rest ih =>
    intro acc h
    obtain ⟨m, t⟩ := c
    simp only [copy_files]
    split
    · exact ih acc (fun x hx => h x (List.mem_cons_of_mem _ hx))
    · rename_i hnone
      exact absurd (h (m, t) (List.mem_cons_self _ _)) (by simp [hnone])

theorem lookupPath_single (d : List (String × FSTree)) (n : String) :
    lookupPath (.dir d) [n] = lookupChild n d := by
  rw [lookupPath_dir_cons]
  cases lookupChild n d <;> simp [lookupPath]

theorem lookupPath_cons_some {d : List (String × FSTree)} {n : String} {c : FSTree}
    (hc : lookupChild n d = some c) (p : List String) :
    lookupPath (.dir d) (n :: p) = lookupPath c p := by
  rw [lookupPath_dir_cons, hc]

theorem extendsL_refl (d : List (String × FSTree)) : extendsL d d :=
  fun _ => ⟨fun _ _ h => h, fun cs h => ⟨cs, h⟩⟩

theorem extendsL_trans {a b c : List (String × FSTree)}
    (h1 : extendsL a b) (h2 : extendsL b c) : extendsL a c := by
  intro p
  refine ⟨fun sz ok h => (h2 p).1 sz ok ((h1 p).1 sz ok h), fun cs h => ?_⟩
  obtain ⟨cs', h'⟩ := (h1 p).2 cs h
  exact (h2 p).2 cs' h'

theorem extends_isSome {d d' : List (String × FSTree)} (h : extendsL d d')
    {n : String} (hs : (lookupChild n d).isSome) : (lookupChild n d').isSome := by
  obtain ⟨e, he⟩ := Option.isSome_iff_exists.mp hs
  cases e with
  | file sz ok =>
    have h2 := (h [n]).1 sz ok (by rw [lookupPath_single, he])
    rw [lookupPath_single] at h2
    simp [h2]
  | dir cs =>
    obtain ⟨cs', h'⟩ := (h [n]).2 cs (by rw [lookupPath_single, he])
    rw [lookupPath_single] at h'
    simp [h']

theorem extendsL_child {d d' : List (String × FSTree)} (h : extendsL d d')
    {n : String} {c c' : List (String × FSTree)}
    (hc : lookupChild n d = some (.dir c)) (hc' : lookupChild n d' = some (.dir c')) :
    extendsL c c' := by
  intro p
  constructor
  · intro sz ok hp
    have h2 := (h (n :: p)).1 sz ok (by rw [lookupPath_cons_some hc]; exact hp)
    rwa [lookupPath_cons_some hc'] at h2
  · intro cs hp
    obtain ⟨cs', h2⟩ := (h (n :: p)).2 cs (by rw [lookupPath_cons_some hc]; exact hp)
    rw [lookupPath_cons_some hc'] at h2
    exact ⟨cs', h2⟩

theorem covers_dir_elim {n : String} {cs rest d : List (String × FSTree)}
    (h : covers ((n, .dir cs) :: rest) d) :
    ∃ d2, lookupChild n d = some (.dir d2) ∧ covers cs d2 ∧ covers rest d := by
  simp only [covers] at h
  obtain ⟨h1, h2⟩ := h
  split at h1
  · rename_i d2 heq
    exact ⟨d2, heq, h1, h2⟩
  · exact h1.elim

theorem covers_dir_intro {n : String} {cs rest d d2 : List (String × FSTree)}
    (heq : lookupChild n d = some (.dir d2)) (h1 : covers cs d2) (h2 : covers rest d) :
    covers ((n, .dir cs) :: rest) d := by
  simp only [covers]
  refine ⟨?_, h2⟩
  rw [heq]
  exact h1

theorem covers_file_isSome : ∀ {l d : List (String × FSTree)}, covers l d →
    ∀ {n : String} {sz : Nat} {ok : Bool}, (n, FSTree.file sz ok) ∈ l →
      (lookupChild n d).isSome := by
  intro l
  induction l with
  | nil => intro d _ n sz ok h; simp at h
  | cons c rest ih =>
    intro d hc n sz ok hm
    obtain ⟨m, t⟩ := c
    rcases List.mem_cons.mp hm with heq | hmem
    · cases heq
      simp only [covers] at hc
      exact hc.1
    · cases t with
      | file s1 o1 =>
        simp only [covers] at hc
        exact ih hc.2 hmem
      | dir cs =>
        obtain ⟨d2, _, _, hrest⟩ := covers_dir_elim hc
        exact ih hrest hmem

theorem copy_files_extends (fs d : List (String × FSTree)) :
    extendsL d (copy_files fs d) := by
  intro p
  cases p with
  | nil =>
    exact ⟨fun sz ok h => by simp [lookupPath] at h, fun cs h => ⟨_, rfl⟩⟩
  | cons n p' =>
    constructor
    · intro sz ok h
      rw [lookupPath_dir_cons] at h
      split at h
      · rename_i c hc
        rw [lookupPath_cons_some (copy_files_lookup_some fs d hc)]
        exact h
      · exact absurd h (by simp)
    · intro cs h
      rw [lookupPath_dir_cons] at h
      split at h
      · rename_i c hc
        exact ⟨cs, by rw [lookupPath_cons_some (copy_files_lookup_some fs d hc)]; exact h⟩
      · exact absurd h (by simp)

theorem extends_append (acc l2 : List (String × FSTree)) :
    extendsL acc (acc ++ l2) := by
  intro p
  cases p with
  | nil =>
    exact ⟨fun sz ok h => by simp [lookupPath] at h, fun cs h => ⟨_, rfl⟩⟩
  | cons n p' =>
    constructor
    · intro sz ok h
      rw [lookupPath_dir_cons] at h
      split at h
      · rename_i c hc
        rw [lookupPath_cons_some (lookupChild_append_some l2 hc)]
        exact h
      · exact absurd h (by simp)
    · intro cs h
      rw [lookupPath_dir_cons] at h
      split at h
      · rename_i c hc
        exact ⟨cs, by rw [lookupPath_cons_some (lookupChild_append_some l2 hc)]; exact h⟩
      · exact absurd h (by simp)

theorem extends_set {n : String} {acc dcs r : List (String × FSTree)}
    (hc : lookupChild n acc = some (.dir dcs)) (hx : extendsL dcs r) :
    extendsL acc (setChild n (.dir r) acc) := by
  intro p
  cases p with
  | nil =>
    exact ⟨fun sz ok h => by simp [lookupPath] at h, fun cs h => ⟨_, rfl⟩⟩
  | cons m p' =>
    by_cases hmn : m = n
    · subst hmn
      constructor
      · intro sz ok h
        rw [lookupPath_cons_some hc] at h
        rw [lookupPath_cons_some (lookupChild_set_self _ hc)]
        exact (hx p').1 sz ok h
      · intro cs h
        rw [lookupPath_cons_some hc] at h
        obtain ⟨cs', h'⟩ := (hx p').2 cs h
        exact ⟨cs', by rw [lookupPath_cons_some (lookupChild_set_self _ hc)]; exact h'⟩
    · have hEq : lookupChild m (setChild n (.dir r) acc) = lookupChild m acc :=
        lookupChild_set_ne _ _ (fun hh => hmn hh.symm)
      constructor
      · intro sz ok h
        rw [lookupPath_dir_cons] at h ⊢
        rw [hEq]
        exact h
      · intro cs h
        rw [lookupPath_dir_cons] at h
        refine ⟨cs, ?_⟩
        rw [lookupPath_dir_cons, hEq]
        exact h

theorem walk_extends : ∀ (l acc : List (String × FSTree)),
    ∀ R, walk_copy l acc = .ok R → extendsL acc R := by
  intro l acc
  induction l, acc using walk_copy.induct with
  | case1 acc =>
    intro R h
    simp only [walk_copy] at h
    cases h
    exact extendsL_refl _
  | case2 n sz ok rest acc ih =>
    intro R h
    simp only [walk_copy] at h
    exact ih R h
  | case3 n cs rest acc hnone e herr ih_inner =>
    intro R h
    simp only [walk_copy, hnone, herr] at h
    cases h
  | case4 n cs rest acc hnone r hok ih_inner ih_rest =>
    intro R h
    simp only [walk_copy, hnone, hok] at h
    exact extendsL_trans (extends_append acc _) (ih_rest R h)
  | case5 n cs rest acc dcs hsome e herr ih_inner =>
    intro R h
    simp only [walk_copy, hsome, herr] at h
    cases h
  | case6 n cs rest acc dcs hsome r hok ih_inner ih_rest =>
    intro R h
    simp only [walk_copy, hsome, hok] at h
    have hdr : extendsL dcs r :=
      extendsL_trans (copy_files_extends (childFiles cs) dcs) (ih_inner r hok)
    exact extendsL_trans (extends_set hsome hdr) (ih_rest R h)
  | case7 n cs rest acc sz ok hsome =>
    intro R h
    simp only [walk_copy, hsome] at h
    cases h

theorem covers_mono_bounded : ∀ (N : Nat) (l d d' : List (String × FSTree)),
    sizeOf l ≤ N → covers l d → extendsL d d' → covers l d' := by
  intro N
  induction N with
  | zero =>
    intro l d d' hsz hc hx
    cases l with
    | nil => simp [covers]
    | cons c rest => simp [List.cons.sizeOf_spec] at hsz
  | succ N ih =>
    intro l d d' hsz hc hx
    cases l with
    | nil => simp [covers]
    | cons c rest =>
      obtain ⟨n, t⟩ := c
      have hszr : sizeOf rest ≤ N := by
        simp only [List.cons.sizeOf_spec, Prod.mk.sizeOf_spec] at hsz
        omega
      cases t with
      | file sz ok =>
        simp only [covers] at hc ⊢
        exact ⟨extends_isSome hx hc.1, ih rest d d' hszr hc.2 hx⟩
      | dir cs =>
        obtain ⟨d2, heq, hc2, hrest⟩ := covers_dir_elim hc
        obtain ⟨d2', heq2⟩ := (hx [n]).2 d2 (by rw [lookupPath_single, heq])
        rw [lookupPath_single] at heq2
        have hszc : sizeOf cs ≤ N := by
          simp only [List.cons.sizeOf_spec, Prod.mk.sizeOf_spec,
            FSTree.dir.sizeOf_spec] at hsz
          omega
        refine covers_dir_intro heq2 ?_ ?_
        · exact ih cs d2 d2' hszc hc2 (extendsL_child hx heq heq2)
        · exact ih rest d d' hszr hrest hx

theorem covers_mono {l d d' : List (String × FSTree)}
    (hc : covers l d) (hx : extendsL d d') : covers l d' :=
  covers_mono_bounded (sizeOf l) l d d' le_rfl hc hx

theorem childFiles_mem {cs : List (String × FSTree)} {n : String} {sz : Nat} {ok : Bool}
    (h : (n, FSTree.file sz ok) ∈ cs) : (n, FSTree.file sz ok) ∈ childFiles cs :=
  List.mem_filter.mpr ⟨h, rfl⟩

theorem childFiles_shape {cs : List (String × FSTree)} {x : String × FSTree}
    (h : x ∈ childFiles cs) : ∃ sz ok, x.2 = FSTree.file sz ok := by
  have hp := (List.mem_filter.mp h).2
  obtain ⟨m, t⟩ := x
  cases t with
  | file sz ok => exact ⟨sz, ok, rfl⟩
  | dir cs2 => simp at hp

theorem covers_fixpoint_bounded : ∀ (N : Nat) (l d : List (String × FSTree)),
    sizeOf l ≤ N → covers l d → walk_copy l d = .ok d := by
  intro N
  induction N with
  | zero =>
    intro l d hsz hc
    cases l with
    | nil => simp [walk_copy]
    | cons c rest => simp [List.cons.sizeOf_spec] at hsz
  | succ N ih =>
    intro l d hsz hc
    cases l with
    | nil => simp [walk_copy]
    | cons c rest =>
      obtain ⟨n, t⟩ := c
      have hszr : sizeOf rest ≤ N := by
        simp only [List.cons.sizeOf_spec, Prod.mk.sizeOf_spec] at hsz
        omega
      cases t with
      | file sz ok =>
        simp only [covers] at hc
        simp only [walk_copy]
        exact ih rest d hszr hc.2
      | dir cs =>
        obtain ⟨d2, heq, hc2, hrest⟩ := covers_dir_elim hc
        have hszc : sizeOf cs ≤ N := by
          simp only [List.cons.sizeOf_spec, Prod.mk.sizeOf_spec,
            FSTree.dir.sizeOf_spec] at hsz
          omega
        have hskip : copy_files (childFiles cs) d2 = d2 := by
          refine copy_files_skip _ _ (fun x hx => ?_)
          obtain ⟨sz, ok, hshape⟩ := childFiles_shape hx
          obtain ⟨m, t2⟩ := x
          simp only at hshape
          subst hshape
          exact covers_file_isSome hc2 (List.mem_filter.mp hx).1
        have hwalk : walk_copy cs d2 = .ok d2 := ih cs d2 hszc hc2
        simp only [walk_copy, heq, hskip, hwalk]
        rw [setChild_self heq]
        exact ih rest d hszr hrest

theorem covers_fixpoint {l d : List (String × FSTree)} (hc : covers l d) :
    walk_copy l d = .ok d :=
  covers_fixpoint_bounded (sizeOf l) l d le_rfl hc

theorem walk_covers : ∀ (l acc : List (String × FSTree)),
    ∀ R, walk_copy l acc = .ok R →
    (∀ n sz ok, (n, FSTree.file sz ok) ∈ l → (lookupChild n acc).isSome) →
    covers l R := by
  intro l acc
  induction l, acc using walk_copy.induct with
  | case1 acc =>
    intro R h hf
    simp [covers]
  | case2 m sz ok rest acc ih =>
    intro R h hf
    simp only [walk_copy] at h
    simp only [covers]
    refine ⟨?_, ih R h (fun n sz' ok' hm => hf n sz' ok' (List.mem_cons_of_mem _ hm))⟩
    exact extends_isSome (walk_extends rest acc R h) (hf m sz ok (List.mem_cons_self _ _))
  | case3 n cs rest acc hnone e herr ih_inner =>
    intro R h hf
    simp only [walk_copy, hnone, herr] at h
    cases h
  | case4 n cs rest acc hnone r hok ih_inner ih_rest =>
    intro R h hf
    simp only [walk_copy, hnone, hok] at h
    have hInner : covers cs r :=
      ih_inner r hok
        (fun m sz ok hm => copy_files_isSome_of_mem _ _ (childFiles_mem hm))
    have hlook : lookupChild n (acc ++ [(n, .dir r)]) = some (.dir r) := by
      rw [lookupChild_append_none _ hnone]
      simp
    have hext := walk_extends rest (acc ++ [(n, .dir r)]) R h
    obtain ⟨r', hr'⟩ := (hext [n]).2 r (by rw [lookupPath_single, hlook])
    rw [lookupPath_single] at hr'
    refine covers_dir_intro hr' (covers_mono hInner (extendsL_child hext hlook hr')) ?_
    exact ih_rest R h
      (fun m sz ok hm =>
        extends_isSome (extends_append acc _) (hf m sz ok (List.mem_cons_of_mem _ hm)))
  | case5 n cs rest acc dcs hsome e herr ih_inner =>
    intro R h hf
    simp only [walk_copy, hsome, herr] at h
    cases h
  | case6 n cs rest acc dcs hsome r hok ih_inner ih_rest =>
    intro R h hf
    simp only [walk_copy, hsome, hok] at h
    have hInner : covers cs r :=
      ih_inner r hok
        (fun m sz ok hm => copy_files_isSome_of_mem _ _ (childFiles_mem hm))
    have hlook : lookupChild n (setChild n (.dir r) acc) = some (.dir r) :=
      lookupChild_set_self _ hsome
    have hext := walk_extends rest (setChild n (.dir r) acc) R h
    obtain ⟨r', hr'⟩ := (hext [n]).2 r (by rw [lookupPath_single, hlook])
    rw [lookupPath_single] at hr'
    refine covers_dir_intro hr' (covers_mono hInner (extendsL_child hext hlook hr')) ?_
    have hdr : extendsL dcs r :=
      extendsL_trans (copy_files_extends (childFiles cs) dcs) (walk_extends _ _ r hok)
    exact ih_rest R h
      (fun m sz ok hm =>
        extends_isSome (extends_set hsome hdr) (hf m sz ok (List.mem_cons_of_mem _ hm)))
  | case7 n cs rest acc sz ok hsome =>
    intro R h hf
    simp only [walk_copy, hsome] at h
    cases h

/-- C8: in the manual fallback copy, every pre-existing destination file is
left unchanged at its path (a source file is copied only where no entry
exists — first-copy-wins); nothing present in the destination is deleted
(every destination path that resolved still resolves); and rerunning the
fallback on the unchanged result is a no-op: it returns the destination
as it is. -/
theorem py_copy_fallback_first_copy_wins
    (src dst out : FSTree) (h : py_copy_fallback src dst = .ok out) :
    (∀ p sz ok, lookupPath dst p = some (.file sz ok) →
      lookupPath out p = some (.file sz ok)) ∧
    (∀ p, (lookupPath dst p).isSome → (lookupPath out p).isSome) ∧
    py_copy_fallback src out = .ok out := by
  cases src with
  | file s o => simp [py_copy_fallback] at h
  | dir scs =>
    cases dst with
    | file s o => simp [py_copy_fallback] at h
    | dir dcs =>
      simp only [py_copy_fallback] at h
      split at h
      · cases h
      · rename_i r hwalk
        cases h
        have hext : extendsL dcs r :=
          extendsL_trans (copy_files_extends (childFiles scs) dcs)
            (walk_extends scs _ r hwalk)
        refine ⟨fun p sz ok hp => (hext p).1 sz ok hp, ?_, ?_⟩
        · intro p hp
          obtain ⟨e, he⟩ := Option.isSome_iff_exists.mp hp
          cases e with
          | file sz ok => simp [(hext p).1 sz ok he]
          | dir cs =>
            obtain ⟨cs', h'⟩ := (hext p).2 cs he
            simp [h']
        · have cov : covers scs r :=
            walk_covers scs _ r hwalk
              (fun n sz ok hm => copy_files_isSome_of_mem _ _ (childFiles_mem hm))
          have hskip : copy_files (childFiles scs) r = r := by
            refine copy_files_skip _ _ (fun x hx => ?_)
            obtain ⟨sz, ok, hshape⟩ := childFiles_shape hx
            obtain ⟨m, t2⟩ := x
            simp only at hshape
            subst hshape
            exact covers_file_isSome cov (List.mem_filter.mp hx).1
          simp only [py_copy_fallback, hskip, covers_fixpoint cov]

/-- Concrete instance of C8: the pre-existing destination file `a` keeps
its contents after the fallback copies the rest. -/
theorem py_copy_fallback_first_copy_wins_witness :
    py_copy_fallback
        (.dir [("a", .file 1 true), ("d", .dir [("b", .file 2 true)])])
        (.dir [("a", .file 9 true)]) =
      .ok (.dir [("a", .file 9 true), ("d", .dir [("b", .file 2 true)])]) ∧
    lookupPath (.dir [("a", .file 9 true), ("d", .dir [("b", .file 2 true)])]) ["a"] =
      some (.file 9 true) :=
  ⟨by simp [py_copy_fallback, walk_copy, copy_files, childFiles, lookupChild,
      List.filter],
   (py_copy_fallback_first_copy_wins
      (.dir [("a", .file 1 true), ("d", .dir [("b", .file 2 true)])])
      (.dir [("a", .file 9 true)])
      (.dir [("a", .file 9 true), ("d", .dir [("b", .file 2 true)])])
      (by simp [py_copy_fallback, walk_copy, copy_files, childFiles, lookupChild,
        List.filter])).1
     ["a"] 9 true (by simp [lookupPath, lookupChild])⟩

/-! ## Shape lemmas for the run-level steps -/

theorem copy_directory_run_evs (w : World) (fs : RunFS) (sp tp : String) :
    ∀ e ∈ (copy_directory_run w fs sp tp).1,
      (∃ p, e = .createdDir p) ∨ e = .ranRobocopy sp tp ∨ e = .ranPyCopy sp tp := by
  intro e he
  cases heq : ensure_dir_run fs tp with
  | none => simp [copy_directory_run, heq] at he
  | some pr =>
    obtain ⟨fs1, created⟩ := pr
    simp only [copy_directory_run, heq] at he
    by_cases hr : run_robocopy w.robocopyAvailable w.robocopyCode = true
    · simp only [hr, if_true] at he
      simp only [List.mem_append, List.mem_map, List.mem_singleton] at he
      rcases he with ⟨p, _, hp⟩ | h2
      · exact .inl ⟨p, hp.symm⟩
      · exact .inr (.inl h2)
    · simp only [hr, Bool.false_eq_true, if_false] at he
      simp only [List.mem_append, List.mem_map, List.mem_singleton] at he
      rcases he with (⟨p, _, hp⟩ | h2) | h3
      · exact .inl ⟨p, hp.symm⟩
      · by_cases ha : w.robocopyAvailable = true
        · simp only [ha, if_true, List.mem_singleton] at h2
          exact .inr (.inl h2)
        · simp only [ha, Bool.false_eq_true, if_false, List.not_mem_nil] at h2
      · exact .inr (.inr h3)

theorem delete_directory_run_cases (w : World) (fs : RunFS) (p : String) :
    delete_directory_run w fs p = ([], .ok fs) ∨
    delete_directory_run w fs p = ([.deletedSource p], .ok (update fs p none)) ∨
    delete_directory_run w fs p = ([.deletedSource p], .error "rmtree") := by
  unfold delete_directory_run
  by_cases h1 : (resolveEntry fs p).isSome = true
  · rw [if_pos h1]
    by_cases h2 : w.rmtreeOk p = true
    · rw [if_pos h2]
      right; left; rfl
    · rw [if_neg h2]
      right; right; rfl
  · rw [if_neg h1]
    left; rfl

theorem rmtree_target_run_cases (w : World) (fs : RunFS) (p : String) :
    rmtree_target_run w fs p = ([.deletedTarget p], .ok (update fs p none)) ∨
    rmtree_target_run w fs p = ([.deletedTarget p], .error "rmtree") := by
  unfold rmtree_target_run
  by_cases h2 : w.rmtreeOk p = true
  · rw [if_pos h2]
    left; rfl
  · rw [if_neg h2]
    right; rfl

theorem create_junction_run_cases (w : World) (fs : RunFS) (link tgt : String) :
    create_junction_run w fs link tgt = ([], .error "链接位置已存在") ∨
    create_junction_run w fs link tgt = ([.ranMklink link tgt], .error "创建联接失败") ∨
    create_junction_run w fs link tgt =
      ([.ranMklink link tgt], .ok (update fs link (some (.junction tgt)))) := by
  unfold create_junction_run
  by_cases h1 : (resolveEntry fs link).isSome = true
  · rw [if_pos h1]
    left; rfl
  · rw [if_neg h1]
    by_cases h2 : w.mklinkCode link tgt ≠ 0
    · rw [if_pos h2]
      right; left; rfl
    · rw [if_neg h2]
      right; right; rfl

/-- Copying a path onto itself right after that path was deleted cannot
fail: `ensure_directory` re-creates the (now empty) directory, robocopy
either succeeds or falls back, and the fallback copies the empty directory
into itself, a no-op. This is why a run whose source and target are the
same path never ends in the caught copy failure after the overwrite
delete. -/
theorem copy_self_ok (w : World) (fs : RunFS) (sp : String) :
    ∃ fs2, (copy_directory_run w (update fs sp none) sp sp).2 = .ok fs2 := by
  have h0 : update fs sp none sp = none := by simp [update_apply]
  simp only [copy_directory_run, ensure_dir_run, h0]
  by_cases hr : run_robocopy w.robocopyAvailable w.robocopyCode = true
  · simp only [hr, if_true]
    exact ⟨_, rfl⟩
  · simp only [hr, Bool.false_eq_true, if_false]
    have h1 : update (update fs sp none) sp (some (.tree (.dir []))) sp =
        some (.tree (.dir [])) := by simp [update_apply]
    simp only [pyCopyResult, resolveEntry, h1, py_copy_fallback, walk_copy,
      copy_files, childFiles, List.filter]
    exact ⟨_, rfl⟩

theorem prompt_for_path_image {resolve : String → String} {dflt : Option String}
    {s : List String} {p : String} {s' : List String}
    (h : prompt_for_path resolve dflt s = some (p, s')) :
    p = dflt.getD "" ∨ ∃ t, p = resolve t := by
  cases s with
  | nil => simp [prompt_for_path] at h
  | cons text rest =>
    simp only [prompt_for_path] at h
    split at h
    · cases h
      exact .inl rfl
    · cases h
      exact .inr ⟨text, rfl⟩

theorem cli_mutation_phase_facts (w : World) (fs : RunFS) (sp tp : String)
    (s : List String) :
    (cli_mutation_phase w fs sp tp s).src = some sp ∧
    (cli_mutation_phase w fs sp tp s).tgt = some tp ∧
    (cli_mutation_phase w fs sp tp s).outcome ≠ .doneLinkOnly ∧
    (∀ ph, (cli_mutation_phase w fs sp tp s).outcome ≠ .crashed ph) ∧
    ((cli_mutation_phase w fs sp tp s).outcome = .copyFailed →
      (∃ e, (copy_directory_run w fs sp tp).2 = .error e) ∧
      (∀ p, Event.deletedSource p ∉ (cli_mutation_phase w fs sp tp s).evs) ∧
      (∀ l t, Event.ranMklink l t ∉ (cli_mutation_phase w fs sp tp s).evs) ∧
      (∀ q, Event.deletedTarget q ∉ (cli_mutation_phase w fs sp tp s).evs)) ∧
    ((cli_mutation_phase w fs sp tp s).outcome = .deleteFailed →
      (∀ l t, Event.ranMklink l t ∉ (cli_mutation_phase w fs sp tp s).evs)) := by
  unfold cli_mutation_phase
  cases ha : ask_yes_no (some "n") s with
  | none => simp
  | some pr =>
    obtain ⟨b, s1⟩ := pr
    cases b with
    | false => simp
    | true =>
      cases hc : (copy_directory_run w fs sp tp).2 with
      | error e =>
        simp only [hc]
        refine ⟨by simp, by simp, by simp, by simp, ?_, by simp⟩
        intro _
        refine ⟨⟨e, rfl⟩, ?_, ?_, ?_⟩
        · intro p hm
          rcases copy_directory_run_evs w fs sp tp _ hm with ⟨q, hq⟩ | hq | hq <;> cases hq
        · intro l t hm
          rcases copy_directory_run_evs w fs sp tp _ hm with ⟨q, hq⟩ | hq | hq <;> cases hq
        · intro q hm
          rcases copy_directory_run_evs w fs sp tp _ hm with ⟨q2, hq⟩ | hq | hq <;> cases hq
      | ok fs1 =>
        cases hd : (delete_directory_run w fs1 sp).2 with
        | error e2 =>
          simp only [hc, hd]
          refine ⟨by simp, by simp, by simp, by simp, by simp, ?_⟩
          intro _ l t hm
          simp only [List.mem_append] at hm
          rcases hm with hm | hm
          · rcases copy_directory_run_evs w fs sp tp _ hm with ⟨q, hq⟩ | hq | hq <;> cases hq
          · rcases delete_directory_run_cases w fs1 sp with hcase | hcase | hcase <;>
              rw [hcase] at hm <;> simp at hm
        | ok fs2 =>
          cases hj : (create_junction_run w fs2 sp tp).2 with
          | error e3 =>
            simp only [hc, hd, hj]
            exact ⟨by simp, by simp, by simp, by simp, by simp, by simp⟩
          | ok fs3 =>
            simp only [hc, hd, hj]
            split <;> exact ⟨by simp, by simp, by simp, by simp, by simp, by simp⟩

theorem cli_link_only_facts (w : World) (fs : RunFS) (sp tp : String) :
    (cli_link_only w fs sp tp).src = some sp ∧
    (cli_link_only w fs sp tp).tgt = some tp ∧
    (cli_link_only w fs sp tp).outcome ≠ .copyFailed ∧
    (cli_link_only w fs sp tp).outcome ≠ .deleteFailed ∧
    ((cli_link_only w fs sp tp).outcome = .crashed .deleteSource →
      ∀ l t, Event.ranMklink l t ∉ (cli_link_only w fs sp tp).evs) ∧
    ((cli_link_only w fs sp tp).outcome = .doneLinkOnly →
      (∀ e ∈ (cli_link_only w fs sp tp).evs, e.isCopy = false) ∧
      Event.ranMklink sp tp ∈ (cli_link_only w fs sp tp).evs ∧
      (cli_link_only w fs sp tp).fs sp = some (.junction tp) ∧
      (sp ≠ tp →
        (∀ e ∈ (cli_link_only w fs sp tp).evs, e.mutatesPath tp = false) ∧
        (cli_link_only w fs sp tp).fs tp = fs tp)) := by
  have hDisj : (if (resolveEntry fs sp).isSome
        then delete_directory_run w fs sp else ([], Except.ok fs)) = ([], .ok fs) ∨
      (if (resolveEntry fs sp).isSome
        then delete_directory_run w fs sp else ([], .ok fs)) =
        ([.deletedSource sp], .ok (update fs sp none)) ∨
      (if (resolveEntry fs sp).isSome
        then delete_directory_run w fs sp else ([], .ok fs)) =
        ([.deletedSource sp], .error "rmtree") := by
    by_cases hs : (resolveEntry fs sp).isSome = true
    · simp only [hs, if_true]
      exact delete_directory_run_cases w fs sp
    · simp only [hs, Bool.false_eq_true, if_false]
      simp
  simp only [cli_link_only]
  rcases hDisj with hD | hD | hD <;> rw [hD] <;> dsimp only
  · rcases create_junction_run_cases w fs sp tp with hJ | hJ | hJ <;> rw [hJ] <;>
      dsimp only
    · exact ⟨by simp, by simp, by simp, by simp, by simp, by simp⟩
    · exact ⟨by simp, by simp, by simp, by simp, by simp, by simp⟩
    · refine ⟨by simp, by simp, by simp, by simp, by simp, ?_⟩
      intro _
      refine ⟨?_, by simp, by simp [update_apply], ?_⟩
      · intro e he
        simp only [List.nil_append, List.mem_singleton] at he
        subst he
        rfl
      · intro hne
        refine ⟨?_, ?_⟩
        · intro e he
          simp only [List.nil_append, List.mem_singleton] at he
          subst he
          simp [Event.mutatesPath, hne]
        · simp [update_apply, Ne.symm hne]
  · rcases create_junction_run_cases w (update fs sp none) sp tp with hJ | hJ | hJ <;>
      rw [hJ] <;> dsimp only
    · exact ⟨by simp, by simp, by simp, by simp, by simp, by simp⟩
    · exact ⟨by simp, by simp, by simp, by simp, by simp, by simp⟩
    · refine ⟨by simp, by simp, by simp, by simp, by simp, ?_⟩
      intro _
      refine ⟨?_, by simp, by simp [update_apply], ?_⟩
      · intro e he
        simp at he
        rcases he with he | he <;> subst he <;> rfl
      · intro hne
        refine ⟨?_, ?_⟩
        · intro e he
          simp at he
          rcases he with he | he <;> subst he <;> simp [Event.mutatesPath, hne]
        · simp [update_apply, Ne.symm hne]
  · refine ⟨by simp, by simp, by simp, by simp, ?_, by simp⟩
    intro _ l t hm
    simp at hm

theorem cli_overwrite_then_copy_facts (w : World) (fs : RunFS) (sp tp : String)
    (s3 : List String) :
    (cli_overwrite_then_copy w fs sp tp s3).src = some sp ∧
    (cli_overwrite_then_copy w fs sp tp s3).tgt = some tp ∧
    (cli_overwrite_then_copy w fs sp tp s3).outcome ≠ .doneLinkOnly ∧
    ((cli_overwrite_then_copy w fs sp tp s3).outcome = .copyFailed →
      (∀ p, Event.deletedSource p ∉ (cli_overwrite_then_copy w fs sp tp s3).evs) ∧
      (∀ l t, Event.ranMklink l t ∉ (cli_overwrite_then_copy w fs sp tp s3).evs) ∧
      (∀ q, Event.deletedTarget q ∈ (cli_overwrite_then_copy w fs sp tp s3).evs →
        q ≠ sp)) ∧
    (((cli_overwrite_then_copy w fs sp tp s3).outcome = .deleteFailed ∨
      (cli_overwrite_then_copy w fs sp tp s3).outcome = .crashed .deleteSource) →
      ∀ l t, Event.ranMklink l t ∉ (cli_overwrite_then_copy w fs sp tp s3).evs) := by
  simp only [cli_overwrite_then_copy]
  rcases rmtree_target_run_cases w fs tp with hR | hR <;> rw [hR] <;> dsimp only
  · obtain ⟨m1, m2, m3, m4, m5, m6⟩ :=
      cli_mutation_phase_facts w (update fs tp none) sp tp s3
    refine ⟨by simp [withEvs, m1], by simp [withEvs, m2], by simp [withEvs, m3],
      ?_, ?_⟩
    · intro hC
      simp only [withEvs] at hC ⊢
      obtain ⟨⟨e, hce⟩, hns, hnm, hnt⟩ := m5 hC
      refine ⟨?_, ?_, ?_⟩
      · intro p
        simp only [List.cons_append, List.nil_append, List.mem_cons]
        rintro (h | h)
        · cases h
        · exact hns p h
      · intro l t
        simp only [List.cons_append, List.nil_append, List.mem_cons]
        rintro (h | h)
        · cases h
        · exact hnm l t h
      · intro q
        simp only [List.cons_append, List.nil_append, List.mem_cons]
        rintro (h | h)
        · cases h
          intro heq
          obtain ⟨fs2, hok⟩ := copy_self_ok w fs sp
          rw [heq, hok] at hce
          cases hce
        · exact absurd h (hnt q)
    · intro hC
      simp only [withEvs] at hC ⊢
      have hd : (cli_mutation_phase w (update fs tp none) sp tp s3).outcome =
          .deleteFailed := by
        rcases hC with h | h
        · exact h
        · exact absurd h (m4 _)
      intro l t
      simp only [List.cons_append, List.nil_append, List.mem_cons]
      rintro (h | h)
      · cases h
      · exact m6 hd l t h
  · refine ⟨by simp, by simp, by simp, by simp, ?_⟩
    rintro (h | h) <;> simp at h

/-- The facts carried through the target loop and up to `run_cli`, for a
run with source path `sp` that entered the loop on filesystem `fs`: the
settled paths, path-resolution of the target, and the per-outcome
guarantees the claims C2, C4, C5 and C6 need. -/
def LoopFacts (w : World) (sp : String) (fs : RunFS) (r : RunResult) : Prop :=
  r.src = some sp ∧
  (∀ p, r.tgt = some p → ∃ t, p = w.resolve t) ∧
  (r.outcome = .copyFailed →
    (∀ p, Event.deletedSource p ∉ r.evs) ∧
    (∀ l t, Event.ranMklink l t ∉ r.evs) ∧
    (∀ q, Event.deletedTarget q ∈ r.evs → q ≠ sp)) ∧
  ((r.outcome = .deleteFailed ∨ r.outcome = .crashed .deleteSource) →
    ∀ l t, Event.ranMklink l t ∉ r.evs) ∧
  (r.outcome = .doneLinkOnly →
    ∀ tp, r.tgt = some tp →
      (∀ e ∈ r.evs, e.isCopy = false) ∧
      Event.ranMklink sp tp ∈ r.evs ∧
      r.fs sp = some (.junction tp) ∧
      (sp ≠ tp →
        (∀ e ∈ r.evs, e.mutatesPath tp = false) ∧ r.fs tp = fs tp))

/-- Prefixing a trace with events that are not copies, deletions or
mklinks, and mutate at most the source path, preserves `LoopFacts`. -/
theorem LoopFacts_withEvs (w : World) (sp : String) (fs : RunFS)
    (pre : List Event) (r : RunResult)
    (hshape : ∀ e ∈ pre, (∃ q, e = .promptedSource q) ∨
      (∃ q, e = .promptedTarget q) ∨ e = .createdDir sp)
    (H : LoopFacts w sp fs r) : LoopFacts w sp fs (withEvs pre r) := by
  obtain ⟨h1, h2, h3, h4, h5⟩ := H
  have hnotDS : ∀ e ∈ pre, ∀ p, e ≠ Event.deletedSource p := by
    intro e he p
    rcases hshape e he with ⟨q, hq⟩ | ⟨q, hq⟩ | hq <;> subst hq <;> simp
  have hnotMK : ∀ e ∈ pre, ∀ l t, e ≠ Event.ranMklink l t := by
    intro e he l t
    rcases hshape e he with ⟨q, hq⟩ | ⟨q, hq⟩ | hq <;> subst hq <;> simp
  have hnotDT : ∀ e ∈ pre, ∀ q, e ≠ Event.deletedTarget q := by
    intro e he q
    rcases hshape e he with ⟨q2, hq⟩ | ⟨q2, hq⟩ | hq <;> subst hq <;> simp
  refine ⟨by simp [withEvs, h1], by simpa [withEvs] using h2, ?_, ?_, ?_⟩
  · intro hC
    obtain ⟨a, b, c⟩ := h3 (by simpa [withEvs] using hC)
    refine ⟨?_, ?_, ?_⟩
    · intro p hm
      simp only [withEvs, List.mem_append] at hm
      rcases hm with hm | hm
      · exact hnotDS _ hm p rfl
      · exact a p hm
    · intro l t hm
      simp only [withEvs, List.mem_append] at hm
      rcases hm with hm | hm
      · exact hnotMK _ hm l t rfl
      · exact b l t hm
    · intro q hm
      simp only [withEvs, List.mem_append] at hm
      rcases hm with hm | hm
      · exact absurd rfl (hnotDT _ hm q)
      · exact c q hm
  · intro hC l t hm
    simp only [withEvs, List.mem_append] at hm
    rcases hm with hm | hm
    · exact hnotMK _ hm l t rfl
    · exact h4 (by simpa [withEvs] using hC) l t hm
  · intro hC tp htp
    obtain ⟨a, b, c, d⟩ := h5 (by simpa [withEvs] using hC) tp (by simpa [withEvs] using htp)
    refine ⟨?_, ?_, by simpa [withEvs] using c, ?_⟩
    · intro e he
      simp only [withEvs, List.mem_append] at he
      rcases he with he | he
      · rcases hshape e he with ⟨q, hq⟩ | ⟨q, hq⟩ | hq <;> subst hq <;> rfl
      · exact a e he
    · simp only [withEvs, List.mem_append]
      exact .inr b
    · intro hne
      obtain ⟨d1, d2⟩ := d hne
      refine ⟨?_, by simpa [withEvs] using d2⟩
      intro e he
      simp only [withEvs, List.mem_append] at he
      rcases he with he | he
      · rcases hshape e he with ⟨q, hq⟩ | ⟨q, hq⟩ | hq <;> subst hq <;>
          simp [Event.mutatesPath, hne]
      · exact d1 e he

theorem target_prompt_image {w : World} {s : List String} {tp : String}
    {s1 : List String}
    (hp : prompt_for_path w.resolve (some (default_target w)) s = some (tp, s1)) :
    ∃ t, tp = w.resolve t := by
  rcases prompt_for_path_image hp with h | h
  · exact ⟨"D:/LMstudio_AIModels", by simpa [default_target] using h⟩
  · exact h

theorem LoopFacts_mutation (w : World) (fs : RunFS) (sp tp : String)
    (s : List String) (himg : ∃ t, tp = w.resolve t) :
    LoopFacts w sp fs (cli_mutation_phase w fs sp tp s) := by
  obtain ⟨m1, m2, m3, m4, m5, m6⟩ := cli_mutation_phase_facts w fs sp tp s
  refine ⟨m1, ?_, ?_, ?_, ?_⟩
  · intro p hp
    rw [m2] at hp
    cases hp
    exact himg
  · intro hC
    obtain ⟨_, a, b, c⟩ := m5 hC
    exact ⟨a, b, fun q hm => absurd hm (c q)⟩
  · intro hC
    rcases hC with hC | hC
    · exact m6 hC
    · exact absurd hC (m4 _)
  · intro hC
    exact absurd hC m3

theorem LoopFacts_overwrite (w : World) (fs : RunFS) (sp tp : String)
    (s3 : List String) (himg : ∃ t, tp = w.resolve t) :
    LoopFacts w sp fs (cli_overwrite_then_copy w fs sp tp s3) := by
  obtain ⟨m1, m2, m3, m4, m5⟩ := cli_overwrite_then_copy_facts w fs sp tp s3
  refine ⟨m1, ?_, m4, m5, ?_⟩
  · intro p hp
    rw [m2] at hp
    cases hp
    exact himg
  · intro hC
    exact absurd hC m3

theorem LoopFacts_link_only (w : World) (fs : RunFS) (sp tp : String)
    (himg : ∃ t, tp = w.resolve t) :
    LoopFacts w sp fs (cli_link_only w fs sp tp) := by
  obtain ⟨m1, m2, m3, m4, m5, m6⟩ := cli_link_only_facts w fs sp tp
  refine ⟨m1, ?_, ?_, ?_, ?_⟩
  · intro p hp
    rw [m2] at hp
    cases hp
    exact himg
  · intro hC
    exact absurd hC m3
  · intro hC
    rcases hC with hC | hC
    · exact absurd hC m4
    · exact m5 hC
  · intro hC tp0 htp0
    rw [m2] at htp0
    cases htp0
    exact m6 hC

theorem promptedTarget_shape (tp : String) :
    ∀ e ∈ [Event.promptedTarget tp], (∃ q, e = .promptedSource q) ∨
      (∃ q, e = .promptedTarget q) ∨ e = .createdDir tp := by
  intro e he
  simp only [List.mem_singleton] at he
  subst he
  exact .inr (.inl ⟨tp, rfl⟩)

theorem cli_target_loop_facts (w : World) (sp : String) :
    ∀ (N : Nat) (s : List String), s.length ≤ N → ∀ fs : RunFS,
      LoopFacts w sp fs (cli_target_loop w fs sp s) := by
  intro N
  induction N with
  | zero =>
    intro s hs fs
    have hnil : s = [] := List.eq_nil_of_length_eq_zero (Nat.le_zero.mp hs)
    subst hnil
    rw [cli_target_loop.eq_def]
    simp only [prompt_for_path]
    exact ⟨rfl, by simp, by simp, by simp, by simp⟩
  | succ N ih =>
    intro s hs fs
    rw [cli_target_loop.eq_def]
    dsimp only
    split
    · exact ⟨rfl, by simp, by simp, by simp, by simp⟩
    · rename_i tp s1 hp
      have himg := target_prompt_image hp
      have hlen1 : s1.length < s.length := prompt_for_path_length hp
      have hshape' : ∀ e ∈ [Event.promptedTarget tp], (∃ q, e = .promptedSource q) ∨
          (∃ q, e = .promptedTarget q) ∨ e = .createdDir sp := by
        intro e he
        simp only [List.mem_singleton] at he
        subst he
        exact .inr (.inl ⟨tp, rfl⟩)
      by_cases hti : (collect_dir_info (resolveEntry fs tp)).ex = true
      · rw [if_pos hti]
        split
        · exact ⟨rfl, by simp, by simp, by simp, by simp⟩
        · rename_i choice s2 h1
          have hlen2 : s2.length ≤ N := by
            simp only [List.length_cons] at hlen1
            omega
          by_cases hc1 : choice = "1"
          · rw [if_pos hc1]
            exact LoopFacts_withEvs w sp fs _ _ hshape' (ih s2 hlen2 fs)
          · rw [if_neg hc1]
            by_cases hc2 : choice = "2"
            · rw [if_pos hc2]
              split
              · exact ⟨rfl, by simp, by simp, by simp, by simp⟩
              · rename_i s3 ha
                have hlen3 : s3.length ≤ N :=
                  le_trans (le_of_lt (ask_yes_no_length ha)) hlen2
                exact LoopFacts_withEvs w sp fs _ _ hshape' (ih s3 hlen3 fs)
              · exact LoopFacts_withEvs w sp fs _ _ hshape'
                  (LoopFacts_overwrite w fs sp tp _ himg)
            · rw [if_neg hc2]
              by_cases hc3 : choice = "3"
              · rw [if_pos hc3]
                split
                · exact ⟨rfl, by simp, by simp, by simp, by simp⟩
                · rename_i s3 ha
                  have hlen3 : s3.length ≤ N :=
                    le_trans (le_of_lt (ask_yes_no_length ha)) hlen2
                  exact LoopFacts_withEvs w sp fs _ _ hshape' (ih s3 hlen3 fs)
                · exact LoopFacts_withEvs w sp fs _ _ hshape'
                    (LoopFacts_link_only w fs sp tp himg)
              · rw [if_neg hc3]
                by_cases hc4 : choice = "4"
                · rw [if_pos hc4]
                  exact ⟨rfl, by simp, by simp, by simp, by simp⟩
                · rw [if_neg hc4]
                  exact LoopFacts_withEvs w sp fs _ _ hshape' (ih s2 hlen2 fs)
      · rw [if_neg hti]
        exact LoopFacts_withEvs w sp fs _ _ hshape'
          (LoopFacts_mutation w fs sp tp s1 himg)

theorem ensure_dir_run_other {fs fs1 : RunFS} {p : String} {ev : List String}
    (h : ensure_dir_run fs p = some (fs1, ev)) : ∀ q, q ≠ p → fs1 q = fs q := by
  intro q hq
  unfold ensure_dir_run at h
  split at h
  · cases h
    simp [update_apply, hq]
  · cases h
    rfl
  · cases h
  · split at h
    · cases h
      rfl
    · cases h

theorem ensure_dir_run_created {fs fs1 : RunFS} {p : String} {ev : List String}
    (h : ensure_dir_run fs p = some (fs1, ev)) : ev = [] ∨ ev = [p] := by
  unfold ensure_dir_run at h
  split at h
  · cases h
    exact .inr rfl
  · cases h
    exact .inl rfl
  · cases h
  · split at h
    · cases h
      exact .inl rfl
    · cases h

theorem cli_after_source_facts (w : World) (fs : RunFS) (sp : String)
    (s : List String) : LoopFacts w sp fs (cli_after_source w fs sp s) := by
  unfold cli_after_source
  dsimp only
  by_cases hc : ((collect_dir_info (resolveEntry fs sp)).ex &&
      (collect_dir_info (resolveEntry fs sp)).is_dir &&
      (collect_dir_info (resolveEntry fs sp)).is_empty) = true
  · rw [if_pos hc]
    cases ha : ask_yes_no (some "n") s with
    | none => exact ⟨rfl, by simp, by simp, by simp, by simp⟩
    | some pr =>
      obtain ⟨b, s1⟩ := pr
      cases b with
      | false => exact ⟨rfl, by simp, by simp, by simp, by simp⟩
      | true => exact cli_target_loop_facts w sp s1.length s1 le_rfl fs
  · rw [if_neg hc]
    exact cli_target_loop_facts w sp s.length s le_rfl fs

theorem run_cli_facts0 (w : World) (script : List String) :
    ((run_cli w script).src = none ∧ (run_cli w script).evs = []) ∨
    ∃ sp0 fsL, (run_cli w script).src = some sp0 ∧ (∃ t, sp0 = w.resolve t) ∧
      (∀ q, q ≠ sp0 → fsL q = w.fs0 q) ∧ LoopFacts w sp0 fsL (run_cli w script) := by
  unfold run_cli
  cases hpr : prompt_for_path w.resolve (some (default_source w)) script with
  | none => exact .inl ⟨rfl, rfl⟩
  | some pr =>
    obtain ⟨sp0, s1⟩ := pr
    have himg : ∃ t, sp0 = w.resolve t := by
      rcases prompt_for_path_image hpr with h | h
      · exact ⟨w.home ++ "/.lmstudio", by simpa [default_source] using h⟩
      · exact h
    have hshapeS : ∀ e ∈ [Event.promptedSource sp0],
        (∃ q, e = Event.promptedSource q) ∨ (∃ q, e = Event.promptedTarget q) ∨
          e = Event.createdDir sp0 := by
      intro e he
      simp only [List.mem_singleton] at he
      subst he
      exact .inl ⟨sp0, rfl⟩
    dsimp only
    by_cases hsi : (collect_dir_info (resolveEntry w.fs0 sp0)).ex = true
    · rw [if_neg (fun h => h hsi)]
      have hAS := cli_after_source_facts w w.fs0 sp0 s1
      refine .inr ⟨sp0, w.fs0, ?_, himg, fun q _ => rfl, ?_⟩
      · simp [withEvs, hAS.1]
      · exact LoopFacts_withEvs w sp0 w.fs0 _ _ hshapeS hAS
    · rw [if_pos hsi]
      cases ha : ask_yes_no (some "y") s1 with
      | none =>
        exact .inr ⟨sp0, w.fs0, rfl, himg, fun q _ => rfl,
          ⟨rfl, by simp, by simp, by simp, by simp⟩⟩
      | some pr2 =>
        obtain ⟨b, s2⟩ := pr2
        cases b with
        | false =>
          exact .inr ⟨sp0, w.fs0, rfl, himg, fun q _ => rfl,
            ⟨rfl, by simp, by simp, by simp, by simp⟩⟩
        | true =>
          cases hens : ensure_dir_run w.fs0 sp0 with
          | none =>
            exact .inr ⟨sp0, w.fs0, rfl, himg, fun q _ => rfl,
              ⟨rfl, by simp, by simp, by simp, by simp⟩⟩
          | some pr3 =>
            obtain ⟨fs1, created⟩ := pr3
            have hAS := cli_after_source_facts w fs1 sp0 s2
            refine .inr ⟨sp0, fs1, ?_, himg, ensure_dir_run_other hens, ?_⟩
            · simp [withEvs, hAS.1]
            · refine LoopFacts_withEvs w sp0 fs1 _ _ ?_ hAS
              intro e he
              simp only [List.mem_cons] at he
              rcases he with he | he
              · subst he
                exact .inl ⟨sp0, rfl⟩
              · rcases ensure_dir_run_created hens with hc | hc <;> subst hc
                · simp at he
                · simp only [List.map, List.mem_singleton] at he
                  subst he
                  exact .inr (.inr rfl)

theorem run_cli_facts (w : World) (script : List String) :
    ∀ sp, (run_cli w script).src = some sp →
      (∃ t, sp = w.resolve t) ∧
      ∃ fsL : RunFS, (∀ q, q ≠ sp → fsL q = w.fs0 q) ∧
        LoopFacts w sp fsL (run_cli w script) := by
  intro sp hsp
  rcases run_cli_facts0 w script with ⟨h, _⟩ | ⟨sp0, fsL, h1, h2, h3, h4⟩
  · rw [h] at hsp
    cases hsp
  · rw [h1] at hsp
    cases hsp
    exact ⟨h2, fsL, h3, h4⟩

/-- Per-outcome guarantees of the GUI worker thread (lines 524-544),
mirroring the loop facts of the CLI: a crash in the copy phase happens
before any source deletion or link creation (and a preceding overwrite
delete cannot have hit the source path, by `copy_self_ok`); a crash in the
source-deletion phase happens before any `mklink`; a link-only completion
ran no copier, placed the junction at the source, and — when the two paths
differ — left the target entry untouched. -/
theorem worker_run_facts (w : World) (fs : RunFS) (sp tp : String)
    (lo ov : Bool) :
    ((worker_run w fs sp tp lo ov).2.1 = .crashed .copy →
      (∀ p, Event.deletedSource p ∉ (worker_run w fs sp tp lo ov).1) ∧
      (∀ l t, Event.ranMklink l t ∉ (worker_run w fs sp tp lo ov).1) ∧
      (∀ q, Event.deletedTarget q ∈ (worker_run w fs sp tp lo ov).1 → q ≠ sp)) ∧
    ((worker_run w fs sp tp lo ov).2.1 = .crashed .deleteSource →
      ∀ l t, Event.ranMklink l t ∉ (worker_run w fs sp tp lo ov).1) ∧
    ((worker_run w fs sp tp lo ov).2.1 = .doneLinkOnly →
      (∀ e ∈ (worker_run w fs sp tp lo ov).1, e.isCopy = false) ∧
      Event.ranMklink sp tp ∈ (worker_run w fs sp tp lo ov).1 ∧
      (worker_run w fs sp tp lo ov).2.2 sp = some (.junction tp) ∧
      (sp ≠ tp →
        (∀ e ∈ (worker_run w fs sp tp lo ov).1, e.mutatesPath tp = false) ∧
        (worker_run w fs sp tp lo ov).2.2 tp = fs tp)) := by
  cases lo with
  | true =>
    have hDisj : (if (resolveEntry fs sp).isSome
          then delete_directory_run w fs sp else ([], Except.ok fs)) = ([], .ok fs) ∨
        (if (resolveEntry fs sp).isSome
          then delete_directory_run w fs sp else ([], .ok fs)) =
          ([.deletedSource sp], .ok (update fs sp none)) ∨
        (if (resolveEntry fs sp).isSome
          then delete_directory_run w fs sp else ([], .ok fs)) =
          ([.deletedSource sp], .error "rmtree") := by
      by_cases hs : (resolveEntry fs sp).isSome = true
      · simp only [hs, if_true]
        exact delete_directory_run_cases w fs sp
      · simp only [hs, Bool.false_eq_true, if_false]
        simp
    simp only [worker_run, eq_self_iff_true, if_true]
    rcases hDisj with hD | hD | hD <;> rw [hD] <;> dsimp only
    · rcases create_junction_run_cases w fs sp tp with hJ | hJ | hJ <;> rw [hJ] <;>
        dsimp only
      · exact ⟨by simp, by simp, by simp⟩
      · exact ⟨by simp, by simp, by simp⟩
      · refine ⟨by simp, by simp, ?_⟩
        intro _
        refine ⟨?_, by simp, by simp [update_apply], ?_⟩
        · intro e he
          simp only [List.nil_append, List.mem_singleton] at he
          subst he
          rfl
        · intro hne
          refine ⟨?_, ?_⟩
          · intro e he
            simp only [List.nil_append, List.mem_singleton] at he
            subst he
            simp [Event.mutatesPath, hne]
          · simp [update_apply, Ne.symm hne]
    · rcases create_junction_run_cases w (update fs sp none) sp tp with hJ | hJ | hJ <;>
        rw [hJ] <;> dsimp only
      · exact ⟨by simp, by simp, by simp⟩
      · exact ⟨by simp, by simp, by simp⟩
      · refine ⟨by simp, by simp, ?_⟩
        intro _
        refine ⟨?_, by simp, by simp [update_apply], ?_⟩
        · intro e he
          simp at he
          rcases he with he | he <;> subst he <;> rfl
        · intro hne
          refine ⟨?_, ?_⟩
          · intro e he
            simp at he
            rcases he with he | he <;> subst he <;> simp [Event.mutatesPath, hne]
          · simp [update_apply, Ne.symm hne]
    · refine ⟨by simp, ?_, by simp⟩
      intro _ l t hm
      simp at hm
  | false =>
    simp only [worker_run, Bool.false_eq_true, if_false]
    by_cases hov : (ov = true ∧ (resolveEntry fs tp).isSome = true)
    · rw [if_pos hov]
      rcases rmtree_target_run_cases w fs tp with hR | hR <;> rw [hR] <;> dsimp only
      · cases hc : (copy_directory_run w (update fs tp none) sp tp).2 with
        | error e =>
          simp only [hc]
          refine ⟨?_, by simp, by simp⟩
          intro _
          refine ⟨?_, ?_, ?_⟩
          · intro p
            simp only [List.cons_append, List.nil_append, List.mem_cons]
            rintro (h | h)
            · cases h
            · rcases copy_directory_run_evs w (update fs tp none) sp tp _ h with
                ⟨q, hq⟩ | hq | hq <;> cases hq
          · intro l t
            simp only [List.cons_append, List.nil_append, List.mem_cons]
            rintro (h | h)
            · cases h
            · rcases copy_directory_run_evs w (update fs tp none) sp tp _ h with
                ⟨q, hq⟩ | hq | hq <;> cases hq
          · intro q
            simp only [List.cons_append, List.nil_append, List.mem_cons]
            rintro (h | h)
            · cases h
              intro heq
              obtain ⟨fs2, hok⟩ := copy_self_ok w fs sp
              rw [heq, hok] at hc
              cases hc
            · rcases copy_directory_run_evs w (update fs tp none) sp tp _ h with
                ⟨q2, hq⟩ | hq | hq <;> cases hq
        | ok fs2 =>
          cases hd : (delete_directory_run w fs2 sp).2 with
          | error e2 =>
            simp only [hc, hd]
            refine ⟨by simp, ?_, by simp⟩
            intro _ l t hm
            simp only [List.cons_append, List.nil_append, List.append_assoc,
              List.mem_cons, List.mem_append] at hm
            rcases hm with hm | hm | hm
            · cases hm
            · rcases copy_directory_run_evs w (update fs tp none) sp tp _ hm with
                ⟨q, hq⟩ | hq | hq <;> cases hq
            · rcases delete_directory_run_cases w fs2 sp with hcase | hcase | hcase <;>
                rw [hcase] at hm <;> simp at hm
          | ok fs3 =>
            cases hj : (create_junction_run w fs3 sp tp).2 with
            | error e3 =>
              simp only [hc, hd, hj]
              exact ⟨by simp, by simp, by simp⟩
            | ok fs4 =>
              simp only [hc, hd, hj]
              exact ⟨by simp, by simp, by simp⟩
      · exact ⟨by simp, by simp, by simp⟩
    · rw [if_neg hov]
      dsimp only
      cases hc : (copy_directory_run w fs sp tp).2 with
      | error e =>
        simp only [hc]
        refine ⟨?_, by simp, by simp⟩
        intro _
        refine ⟨?_, ?_, ?_⟩
        · intro p
          simp only [List.nil_append]
          intro h
          rcases copy_directory_run_evs w fs sp tp _ h with ⟨q, hq⟩ | hq | hq <;> cases hq
        · intro l t
          simp only [List.nil_append]
          intro h
          rcases copy_directory_run_evs w fs sp tp _ h with ⟨q, hq⟩ | hq | hq <;> cases hq
        · intro q
          simp only [List.nil_append]
          intro h
          rcases copy_directory_run_evs w fs sp tp _ h with ⟨q2, hq⟩ | hq | hq <;> cases hq
      | ok fs2 =>
        cases hd : (delete_directory_run w fs2 sp).2 with
        | error e2 =>
          simp only [hc, hd]
          refine ⟨by simp, ?_, by simp⟩
          intro _ l t hm
          simp only [List.nil_append, List.mem_append] at hm
          rcases hm with hm | hm
          · rcases copy_directory_run_evs w fs sp tp _ hm with
              ⟨q, hq⟩ | hq | hq <;> cases hq
          · rcases delete_directory_run_cases w fs2 sp with hcase | hcase | hcase <;>
              rw [hcase] at hm <;> simp at hm
        | ok fs3 =>
          cases hj : (create_junction_run w fs3 sp tp).2 with
          | error e3 =>
            simp only [hc, hd, hj]
            exact ⟨by simp, by simp, by simp⟩
          | ok fs4 =>
            simp only [hc, hd, hj]
            exact ⟨by simp, by simp, by simp⟩

/-! ## Claims C2 and C6: runs whose source and target coincide -/

/-- A world in which every path resolves to itself, the single path `X`
holds a non-empty directory, `rmtree` and `mklink` succeed, and robocopy
is absent. Entering `X` for both the source and the target exercises a
run whose two settled paths coincide. -/
def selfW : World :=
  { resolve := id, home := "H"
    fs0 := fun p => if p = "X" then some (.tree (.dir [("f", .file 5 true)])) else none
    rmtreeOk := fun _ => true, mklinkCode := fun _ _ => 0
    robocopyAvailable := false, robocopyCode := 0
    robocopyTree := .dir [], admin := true, procs := [] }

/-- C2 is false on the code: the CLI run that answers `X` to both path
prompts, picks the overwrite choice and confirms, settles on source `X`
and target `X` — the same path — and its first mutating operation, the
overwrite delete, executes on that shared path. No distinctness check
exists anywhere in the source. -/
theorem run_cli_same_path_reaches_mutation :
    (run_cli selfW ["X", "X", "2", "y", "y"]).src = some "X" ∧
    (run_cli selfW ["X", "X", "2", "y", "y"]).tgt = some "X" ∧
    firstMutation (run_cli selfW ["X", "X", "2", "y", "y"]).evs =
      some (.deletedTarget "X") := by
  refine ⟨?_, ?_, ?_⟩ <;>
    simp [run_cli, cli_after_source, cli_target_loop, cli_overwrite_then_copy,
      cli_mutation_phase, prompt_for_path, ask_yes_no, selfW, collect_dir_info,
      resolveEntry, rmtree_target_run, copy_directory_run, ensure_dir_run,
      update_apply, run_robocopy, pyCopyResult, py_copy_fallback, walk_copy,
      copy_files, childFiles, lookupChild, delete_directory_run,
      create_junction_run, withEvs, firstMutation, Event.isMutation,
      countFiles, countDirs, walk_dir_size, List.filter, List.find?]

/-- C2 amended: before any mutating operation both settled paths are fully
resolved — each is an image of the platform resolver (`expanduser().resolve()`)
— but the program never compares them: nothing guarantees the source and
target are distinct, and a run can reach its first mutation with the two
equal (see the counterexample above). -/
theorem run_cli_paths_resolved (w : World) (script : List String) (sp : String)
    (hsp : (run_cli w script).src = some sp) :
    (∃ t, sp = w.resolve t) ∧
    ∀ tp, (run_cli w script).tgt = some tp → ∃ t, tp = w.resolve t := by
  obtain ⟨himg, fsL, hother, hLF⟩ := run_cli_facts w script sp hsp
  exact ⟨himg, hLF.2.1⟩

/-- Concrete instance of the amended C2. -/
theorem run_cli_paths_resolved_witness :
    (run_cli selfW ["X"]).src = some "X" ∧
    ((∃ t, "X" = selfW.resolve t) ∧
      ∀ tp, (run_cli selfW ["X"]).tgt = some tp → ∃ t, tp = selfW.resolve t) := by
  have h : (run_cli selfW ["X"]).src = some "X" := by
    simp [run_cli, cli_after_source, cli_target_loop, prompt_for_path, selfW,
      collect_dir_info, resolveEntry, withEvs, countFiles, countDirs,
      walk_dir_size, List.filter]
  exact ⟨h, run_cli_paths_resolved selfW ["X"] "X" h⟩

/-- C6 is false on the code as stated for every run: when the prompted
source and target are the same existing path `X`, the link-only choice
first deletes the "source" — which is the pre-existing target itself —
and then plants a self-referential junction `X -> X` there: the run
reports completion, yet the target's contents are destroyed and the path
no longer resolves at all. -/
theorem link_only_same_path_destroys_target :
    (run_cli selfW ["X", "X", "3", "y"]).outcome = .doneLinkOnly ∧
    (run_cli selfW ["X", "X", "3", "y"]).tgt = some "X" ∧
    selfW.fs0 "X" = some (.tree (.dir [("f", .file 5 true)])) ∧
    (run_cli selfW ["X", "X", "3", "y"]).fs "X" = some (.junction "X") ∧
    resolveEntry (run_cli selfW ["X", "X", "3", "y"]).fs "X" = none := by
  refine ⟨?_, ?_, rfl, ?_, ?_⟩ <;>
    simp [run_cli, cli_after_source, cli_target_loop, cli_link_only,
      prompt_for_path, ask_yes_no, selfW, collect_dir_info, resolveEntry,
      delete_directory_run, create_junction_run, update_apply, withEvs,
      countFiles, countDirs, walk_dir_size, List.filter]

/-- C6 amended: in a link-only completion whose source and target paths
are distinct, the Bulk Copier is indeed never invoked, the junction to the
settled target sits at the source path, and the target entry is exactly
what it was before the run — both in the CLI (menu choice `3`) and in the
GUI worker. The distinctness hypothesis is necessary: with the two paths
equal the same choice destroys the target. -/
theorem link_only_preserves_target :
    (∀ (w : World) (script : List String) (sp tp : String),
      (run_cli w script).src = some sp →
      (run_cli w script).tgt = some tp →
      (run_cli w script).outcome = .doneLinkOnly →
      sp ≠ tp →
      (∀ e ∈ (run_cli w script).evs, e.isCopy = false) ∧
      Event.ranMklink sp tp ∈ (run_cli w script).evs ∧
      (run_cli w script).fs sp = some (.junction tp) ∧
      (run_cli w script).fs tp = w.fs0 tp) ∧
    (∀ (w : World) (fs : RunFS) (sp tp : String) (lo ov : Bool),
      (worker_run w fs sp tp lo ov).2.1 = .doneLinkOnly →
      sp ≠ tp →
      (∀ e ∈ (worker_run w fs sp tp lo ov).1, e.isCopy = false) ∧
      Event.ranMklink sp tp ∈ (worker_run w fs sp tp lo ov).1 ∧
      (worker_run w fs sp tp lo ov).2.2 sp = some (.junction tp) ∧
      (worker_run w fs sp tp lo ov).2.2 tp = fs tp) := by
  constructor
  · intro w script sp tp hsrc htgt hout hne
    obtain ⟨_, fsL, hother, hLF⟩ := run_cli_facts w script sp hsrc
    obtain ⟨a, b, c, d⟩ := hLF.2.2.2.2 hout tp htgt
    obtain ⟨d1, d2⟩ := d hne
    exact ⟨a, b, c, by rw [d2, hother tp (Ne.symm hne)]⟩
  · intro w fs sp tp lo ov hout hne
    obtain ⟨a, b, c, d⟩ := (worker_run_facts w fs sp tp lo ov).2.2 hout
    obtain ⟨d1, d2⟩ := d hne
    exact ⟨a, b, c, d2⟩

/-- A world with a non-empty source directory at `S` and a distinct
pre-existing target directory at `T`, every facility succeeding. -/
def linkWorld : World :=
  { resolve := id, home := "H"
    fs0 := fun p => if p = "S" then some (.tree (.dir [("a", .file 1 true)]))
      else if p = "T" then some (.tree (.dir [("g", .file 7 true)])) else none
    rmtreeOk := fun _ => true, mklinkCode := fun _ _ => 0
    robocopyAvailable := false, robocopyCode := 0
    robocopyTree := .dir [], admin := true, procs := [] }

/-- Concrete instance of the amended C6: in `linkWorld` the link-only run
completes, the target entry at `T` is untouched and the junction sits at
`S`. -/
theorem link_only_preserves_target_witness :
    (run_cli linkWorld ["S", "T", "3", "y"]).outcome = .doneLinkOnly ∧
    (run_cli linkWorld ["S", "T", "3", "y"]).fs "T" = linkWorld.fs0 "T" ∧
    (run_cli linkWorld ["S", "T", "3", "y"]).fs "S" = some (.junction "T") := by
  have hs : (run_cli linkWorld ["S", "T", "3", "y"]).src = some "S" := by
    simp [run_cli, cli_after_source, cli_target_loop, cli_link_only,
      prompt_for_path, ask_yes_no, linkWorld, collect_dir_info, resolveEntry,
      delete_directory_run, create_junction_run, update_apply, withEvs,
      countFiles, countDirs, walk_dir_size, List.filter]
  have ht : (run_cli linkWorld ["S", "T", "3", "y"]).tgt = some "T" := by
    simp [run_cli, cli_after_source, cli_target_loop, cli_link_only,
      prompt_for_path, ask_yes_no, linkWorld, collect_dir_info, resolveEntry,
      delete_directory_run, create_junction_run, update_apply, withEvs,
      countFiles, countDirs, walk_dir_size, List.filter]
  have ho : (run_cli linkWorld ["S", "T", "3", "y"]).outcome = .doneLinkOnly := by
    simp [run_cli, cli_after_source, cli_target_loop, cli_link_only,
      prompt_for_path, ask_yes_no, linkWorld, collect_dir_info, resolveEntry,
      delete_directory_run, create_junction_run, update_apply, withEvs,
      countFiles, countDirs, walk_dir_size, List.filter]
  have hne : "S" ≠ "T" := by decide
  obtain ⟨a, b, c, d⟩ :=
    link_only_preserves_target.1 linkWorld ["S", "T", "3", "y"] "S" "T" hs ht ho hne
  exact ⟨ho, d, c⟩

/-! ## Claims C4 and C5: the failure discipline of the mutation phases -/

/-- A world with a non-empty source at `S` and a dangling junction at `T`:
`ensure_directory` on `T` raises on the broken link, so the copy phase
fails before anything else runs. -/
def copyFailWorld : World :=
  { resolve := id, home := "H"
    fs0 := fun p => if p = "S" then some (.tree (.dir [("a", .file 1 true)]))
      else if p = "T" then some (.junction "Z") else none
    rmtreeOk := fun _ => true, mklinkCode := fun _ _ => 0
    robocopyAvailable := true, robocopyCode := 0
    robocopyTree := .dir [], admin := true, procs := [] }

/-- A world whose `rmtree` always fails: the copy succeeds (robocopy is
present with exit code 0) and the source deletion then fails. -/
def deleteFailWorld : World :=
  { resolve := id, home := "H"
    fs0 := fun p => if p = "S" then some (.tree (.dir [("a", .file 1 true)])) else none
    rmtreeOk := fun _ => false, mklinkCode := fun _ _ => 0
    robocopyAvailable := true, robocopyCode := 0
    robocopyTree := .dir [("a", .file 1 true)], admin := true, procs := [] }

/-- C4: when the copy phase fails, the run stops there with the source
intact — the trace of the whole run contains no source deletion and no
`mklink`, and any overwrite delete that preceded the copy was at a path
other than the source. This holds for the CLI's caught `copyFailed`
outcome and for the GUI worker's crash in the copy phase alike. -/
theorem copy_failure_stops_run :
    (∀ (w : World) (script : List String) (sp : String),
      (run_cli w script).src = some sp →
      (run_cli w script).outcome = .copyFailed →
      (∀ p, Event.deletedSource p ∉ (run_cli w script).evs) ∧
      (∀ l t, Event.ranMklink l t ∉ (run_cli w script).evs) ∧
      (∀ q, Event.deletedTarget q ∈ (run_cli w script).evs → q ≠ sp)) ∧
    (∀ (w : World) (fs : RunFS) (sp tp : String) (lo ov : Bool),
      (worker_run w fs sp tp lo ov).2.1 = .crashed .copy →
      (∀ p, Event.deletedSource p ∉ (worker_run w fs sp tp lo ov).1) ∧
      (∀ l t, Event.ranMklink l t ∉ (worker_run w fs sp tp lo ov).1) ∧
      (∀ q, Event.deletedTarget q ∈ (worker_run w fs sp tp lo ov).1 → q ≠ sp)) := by
  constructor
  · intro w script sp hsrc hout
    obtain ⟨_, fsL, _, hLF⟩ := run_cli_facts w script sp hsrc
    exact hLF.2.2.1 hout
  · intro w fs sp tp lo ov hout
    exact (worker_run_facts w fs sp tp lo ov).1 hout

/-- Concrete instance of C4: in `copyFailWorld` the run ends in
`copyFailed`, with no source deletion and no `mklink` in its trace. -/
theorem copy_failure_stops_run_witness :
    (run_cli copyFailWorld ["S", "T", "y"]).outcome = .copyFailed ∧
    Event.deletedSource "S" ∉ (run_cli copyFailWorld ["S", "T", "y"]).evs ∧
    Event.ranMklink "S" "T" ∉ (run_cli copyFailWorld ["S", "T", "y"]).evs := by
  have hs : (run_cli copyFailWorld ["S", "T", "y"]).src = some "S" := by
    simp [run_cli, cli_after_source, cli_target_loop, cli_mutation_phase,
      prompt_for_path, ask_yes_no, copyFailWorld, collect_dir_info,
      resolveEntry, copy_directory_run, ensure_dir_run, withEvs,
      countFiles, countDirs, walk_dir_size, List.filter]
  have ho : (run_cli copyFailWorld ["S", "T", "y"]).outcome = .copyFailed := by
    simp [run_cli, cli_after_source, cli_target_loop, cli_mutation_phase,
      prompt_for_path, ask_yes_no, copyFailWorld, collect_dir_info,
      resolveEntry, copy_directory_run, ensure_dir_run, withEvs,
      countFiles, countDirs, walk_dir_size, List.filter]
  obtain ⟨a, b, c⟩ := copy_failure_stops_run.1 copyFailWorld ["S", "T", "y"] "S" hs ho
  exact ⟨ho, a "S", b "S" "T"⟩

/-- C5: when the source-deletion phase fails, no `mklink` is ever invoked
in that run — for the CLI's caught `deleteFailed` outcome, for the CLI's
uncaught deletion crash in the link-only branch, and for the GUI worker's
crash in the deletion phase. -/
theorem delete_failure_skips_link :
    (∀ (w : World) (script : List String),
      ((run_cli w script).outcome = .deleteFailed ∨
       (run_cli w script).outcome = .crashed .deleteSource) →
      ∀ l t, Event.ranMklink l t ∉ (run_cli w script).evs) ∧
    (∀ (w : World) (fs : RunFS) (sp tp : String) (lo ov : Bool),
      (worker_run w fs sp tp lo ov).2.1 = .crashed .deleteSource →
      ∀ l t, Event.ranMklink l t ∉ (worker_run w fs sp tp lo ov).1) := by
  constructor
  · intro w script hout l t
    rcases run_cli_facts0 w script with ⟨_, hevs⟩ | ⟨sp0, fsL, _, _, _, hLF⟩
    · rw [hevs]
      exact List.not_mem_nil _
    · exact hLF.2.2.2.1 hout l t
  · intro w fs sp tp lo ov hout
    exact (worker_run_facts w fs sp tp lo ov).2.1 hout

/-- Concrete instance of C5: in `deleteFailWorld` the run ends in
`deleteFailed` and its trace contains no `mklink`. -/
theorem delete_failure_skips_link_witness :
    (run_cli deleteFailWorld ["S", "T", "y"]).outcome = .deleteFailed ∧
    Event.ranMklink "S" "T" ∉ (run_cli deleteFailWorld ["S", "T", "y"]).evs := by
  have ho : (run_cli deleteFailWorld ["S", "T", "y"]).outcome = .deleteFailed := by
    simp [run_cli, cli_after_source, cli_target_loop, cli_mutation_phase,
      prompt_for_path, ask_yes_no, deleteFailWorld, collect_dir_info,
      resolveEntry, copy_directory_run, ensure_dir_run, run_robocopy,
      resolveKey, update_apply, delete_directory_run, withEvs,
      countFiles, countDirs, walk_dir_size, List.filter]
  exact ⟨ho,
    delete_failure_skips_link.1 deleteFailWorld ["S", "T", "y"] (.inl ho) "S" "T"⟩
